import Mathlib

/-!
Verification of the SessionViewer ingestion pipeline.

This file shallowly embeds the core of the Python backend
(`backend/app/services/{indexer,claude_parser,codex_parser,file_scanner}.py`,
`backend/app/utils/{jsonl,paths}.py`, `backend/app/routers/subagents.py`)
into Lean and proves or refutes the frozen correctness claims about it.

Modelling conventions, used throughout:

* Python strings are modelled as `List Char` (abbreviated `Str`); Python
  slicing/stripping/prefix tests translate to the corresponding list
  operations.
* Timestamps are abstract: each JSONL record carries `timestamp : Option Nat`,
  the value computed by the parsers' ISO-8601 parse with
  fall-back-to-`utcnow()` (``none`` when the record has no timestamp field).
  The ingestion clock `datetime.utcnow()` is passed explicitly as a `now`
  parameter.  No claim concerns the textual ISO-8601 parsing itself.
* JSON records are modelled structurally, keeping exactly the fields the
  program reads; `json.dumps` of a payload is modelled by a canonical
  rendering of those fields (`dumpsClaudeMsg`, `dumpsCodexPayload`).  No claim
  depends on the serialized byte text.
* The database is modelled as an explicit `Store` of rows; a per-file commit
  appends rows, a rollback leaves the store unchanged, and a commit fails
  (raising, like SQLAlchemy's `IntegrityError`) exactly when it would insert
  a `Session` row whose primary key `id` already exists.
-/

/-- Python strings, modelled as lists of characters. -/
abbrev Str := List Char

/-- Characters stripped by Python `str.strip()` (ASCII whitespace). -/
def isPySpace (c : Char) : Bool :=
  c = ' ' || c = '\t' || c = '\n' || c = '\r' || c = '\x0b' || c = '\x0c'

/-- Python `str.strip()`: drop leading and trailing whitespace. -/
def pyStrip (s : Str) : Str :=
  ((s.dropWhile isPySpace).reverse.dropWhile isPySpace).reverse

/-- Python truthiness of an optional string (`None` and `""` are falsy). -/
def optStrFalsy : Option Str → Bool
  | none => true
  | some s => s.isEmpty

/-!  ### `utils/paths.py` -/

/-- `decode_project_path` (`utils/paths.py`): strip a leading dash, replace
every remaining dash with a slash, and ensure a leading slash. -/
def decode_project_path (encoded : Str) : Str :=
  if encoded = [] then []
  else
    let e := match encoded with
      | '-' :: rest => rest
      | l => l
    let decoded := e.map (fun c => if c = '-' then '/' else c)
    if decoded.head? = some '/' then decoded else '/' :: decoded

/-- `encode_project_path` (`utils/paths.py`): strip a leading slash, replace
every remaining slash with a dash, and prepend a dash. -/
def encode_project_path (path : Str) : Str :=
  if path = [] then []
  else
    let p := match path with
      | '/' :: rest => rest
      | l => l
    '-' :: p.map (fun c => if c = '/' then '-' else c)

lemma map_slashdash_dashslash (q : Str) (hq : '-' ∉ q) :
    (q.map (fun c => if c = '/' then '-' else c)).map
      (fun c => if c = '-' then '/' else c) = q := by
  induction q with
  | nil => rfl
  | cons c rest ih =>
    simp only [List.mem_cons, not_or] at hq
    simp only [List.map_cons, ih hq.2]
    by_cases h : c = '/'
    · simp [h]
    · have hc : ¬c = '-' := fun e => hq.1 e.symm
      simp [h, hc]

lemma map_eq_self_of_mem {f : Char → Char} {l : Str} (h : l.map f = l) :
    ∀ c ∈ l, f c = c := by
  induction l with
  | nil => intro c hc; cases hc
  | cons a rest ih =>
    intro c hmem
    simp only [List.map_cons, List.cons.injEq] at h
    rcases List.mem_cons.mp hmem with he | he
    · exact he ▸ h.1
    · exact ih h.2 c he

lemma encode_cons_slash (q : Str) :
    encode_project_path ('/' :: q) =
      '-' :: q.map (fun c => if c = '/' then '-' else c) := by
  rfl

lemma decode_cons_dash (e : Str) :
    decode_project_path ('-' :: e) =
      (if (e.map (fun c => if c = '-' then '/' else c)).head? = some '/'
        then e.map (fun c => if c = '-' then '/' else c)
        else '/' :: e.map (fun c => if c = '-' then '/' else c)) := by
  rfl

/-- C10: the claimed round trip fails already on a path that starts with a
double slash (and contains no dash): `"//a"` encodes to `"--a"`, which decodes
to `"/a"`. -/
theorem claim_C10_counterexample :
    "//a".toList.head? = some '/' ∧ '-' ∉ "//a".toList ∧
      decode_project_path (encode_project_path "//a".toList) ≠ "//a".toList := by
  refine ⟨rfl, by decide, ?_⟩
  decide

/-- C10 (amended): for every string `'/' :: q` with no dash whose second
character is not another slash, `decode_project_path ∘ encode_project_path`
is the identity; and whenever the string does contain a dash (after the
leading slash) the round trip is lossy, because decoding turns every dash
into a slash. -/
theorem claim_C10 (q : Str) :
    ('-' ∉ q → ¬ q.head? = some '/' →
      decode_project_path (encode_project_path ('/' :: q)) = '/' :: q) ∧
    ('-' ∈ q →
      decode_project_path (encode_project_path ('/' :: q)) ≠ '/' :: q) := by
  constructor
  · intro hnd hhead
    rw [encode_cons_slash, decode_cons_dash, map_slashdash_dashslash q hnd]
    rw [if_neg hhead]
  · intro hd
    rw [encode_cons_slash, decode_cons_dash]
    set d := ((q.map (fun c => if c = '/' then '-' else c)).map
      (fun c => if c = '-' then '/' else c)) with hdks
    have hdlen : d.length = q.length := by
      rw [hdks, List.length_map, List.length_map]
    have hdne : d ≠ q := by
      intro he
      rw [hdks, List.map_map] at he
      have h2 := map_eq_self_of_mem he '-' hd
      exact absurd h2 (by decide)
    by_cases hh : d.head? = some '/'
    · rw [if_pos hh]
      intro he
      have hlen2 : d.length = q.length + 1 := by rw [he]; simp
      omega
    · rw [if_neg hh]
      intro he
      exact hdne (by injection he)

/-- Witness for C10 (amended): the round trip is the identity on `"/ab"` and
lossy on `"/a-b"`. -/
theorem claim_C10_witness :
    decode_project_path (encode_project_path "/ab".toList) = "/ab".toList ∧
      decode_project_path (encode_project_path "/a-b".toList) ≠ "/a-b".toList :=
  ⟨(claim_C10 "ab".toList).1 (by decide) (by decide),
   (claim_C10 "a-b".toList).2 (by decide)⟩

/-!  ### `utils/jsonl.py` — content normalizer -/

/-- Scan forward to the first `'>'`; return the characters strictly before it
and the remainder after it.  Models one attempted match of the regex
`<[^>]+>` after an opening `'<'`. -/
def splitUntilGt : Str → Option (Str × Str)
  | [] => none
  | c :: rest =>
      if c = '>' then some ([], rest)
      else (splitUntilGt rest).map (fun p => (c :: p.1, p.2))

lemma splitUntilGt_length {l a b : Str} (h : splitUntilGt l = some (a, b)) :
    b.length < l.length := by
  induction l generalizing a b with
  | nil => simp [splitUntilGt] at h
  | cons c rest ih =>
    simp only [splitUntilGt] at h
    split at h
    · cases h
      simp
    · cases hs : splitUntilGt rest with
      | none => rw [hs] at h; cases h
      | some p =>
        rw [hs] at h
        cases h
        have := ih (a := p.1) (b := p.2) (by rw [hs])
        simp only [List.length_cons]
        omega

/-- Fuel-driven worker for `subTags`; the fuel (always at least the input
length, which strictly decreases at every step) makes the recursion
structural so that it reduces inside the kernel. -/
def subTagsFuel : Nat → Str → Str
  | 0, l => l
  | _ + 1, [] => []
  | fuel + 1, c :: rest =>
      if c = '<' then
        match splitUntilGt rest with
        | some (inside, after) =>
            if inside = [] then '<' :: subTagsFuel fuel rest
            else subTagsFuel fuel after
        | none => '<' :: subTagsFuel fuel rest
      else c :: subTagsFuel fuel rest

/-- `re.sub(r'<[^>]+>', '', text)`: left-to-right removal of every
angle-bracket tag with a non-empty body. -/
def subTags (l : Str) : Str := subTagsFuel l.length l

/-- `strip_xml_tags` (`utils/jsonl.py`): remove tags, then `str.strip()`. -/
def strip_xml_tags (text : Str) : Str :=
  pyStrip (subTags text)

/-- The fixed system/environment prefixes `_SYSTEM_PREFIXES`
(`utils/jsonl.py`). -/
def SYSTEM_PREFIXES : List Str :=
  ["<local-command-".toList, "<command-name>".toList,
   "<environment_context>".toList, "<cwd>".toList,
   "<system-reminder>".toList, "# AGENTS.md instructions".toList]

/-- `is_system_message` (`utils/jsonl.py`): the stripped text starts with one
of the fixed prefixes. -/
def is_system_message (text : Str) : Bool :=
  SYSTEM_PREFIXES.any (fun p => p.isPrefixOf (pyStrip text))

/-- `create_content_preview` (`utils/jsonl.py`) on an already-serialized
string: the first 200 characters, with an ellipsis marker when truncated. -/
def create_content_preview (content : Str) : Str :=
  if content.length ≤ 200 then content
  else content.take 200 ++ "...".toList

/-!  ### JSON record model

Records are modelled structurally, keeping exactly the fields the program
reads.  `message` payloads are modelled as objects, per the documented record
shapes; the `str` branch of `extract_text_from_content` is unreachable for
such payloads.  -/

/-- An element of a JSON `content` array: `item ty text` is an object keeping
the `type` and `text` fields the program reads (`none` = key absent);
`nondict` is any non-object element. -/
inductive ContentItem where
  | item (ty : Option Str) (text : Option Str)
  | nondict
deriving DecidableEq, Repr

/-- The value of a message object's `content` key: a list of items, a string,
or any other JSON value (`other`). -/
inductive ContentVal where
  | list (items : List ContentItem)
  | str (s : Str)
  | other
deriving DecidableEq, Repr

/-- A Format A `message` payload object, keeping the fields the program
reads: `content`, `model`, `usage.input_tokens`, `usage.output_tokens`
(`none` = key absent). -/
structure ClaudeMsg where
  content : Option ContentVal := none
  model : Option Str := none
  usage_input : Option Nat := none
  usage_output : Option Nat := none
deriving DecidableEq, Repr

/-- A Format B record `payload` object, keeping the fields the program reads:
`id`, `cwd`, `model_provider` (session_meta) and `type`, `role`, `content`
(response_item).  `content` is restricted to a JSON array, its default. -/
structure CodexPayload where
  id : Option Str := none
  cwd : Option Str := none
  model_provider : Option Str := none
  ptype : Option Str := none
  role : Option Str := none
  content : List ContentItem := []
deriving DecidableEq, Repr

/-- Stands for `json.dumps` of an optional string field. -/
def dumpsOptStr : Option Str → Str
  | none => "null".toList
  | some s => '"' :: s ++ ['"']

/-- Stands for `json.dumps` of a content item. -/
def dumpsContentItem : ContentItem → Str
  | .item ty text =>
      '\x7b' :: "\"type\": ".toList ++ dumpsOptStr ty ++ ", \"text\": ".toList
        ++ dumpsOptStr text ++ ['\x7d']
  | .nondict => "null".toList

/-- Stands for `json.dumps` of a `content` value. -/
def dumpsContentVal : ContentVal → Str
  | .list items =>
      '[' :: List.intercalate ", ".toList (items.map dumpsContentItem) ++ [']']
  | .str s => '"' :: s ++ ['"']
  | .other => "\x7b\x7d".toList

/-- Stands for `json.dumps` of a Format A message payload.  The model keeps
only the fields the program reads, so this rendering is canonical rather than
byte-identical to CPython's; no claim depends on the serialized text. -/
def dumpsClaudeMsg (m : ClaudeMsg) : Str :=
  '\x7b' :: "\"content\": ".toList
    ++ (match m.content with | none => "null".toList | some v => dumpsContentVal v)
    ++ ", \"model\": ".toList ++ dumpsOptStr m.model ++ ['\x7d']

/-- Stands for `json.dumps` of a Format B record payload; same canonical
rendering caveat as `dumpsClaudeMsg`. -/
def dumpsCodexPayload (p : CodexPayload) : Str :=
  '\x7b' :: "\"type\": ".toList ++ dumpsOptStr p.ptype
    ++ ", \"role\": ".toList ++ dumpsOptStr p.role
    ++ ", \"content\": ".toList
    ++ ('[' :: List.intercalate ", ".toList (p.content.map dumpsContentItem) ++ [']'])
    ++ ['\x7d']

/-- `extract_text_from_content` (`utils/jsonl.py`) on an object payload:
concatenate (space-separated) the `text` of `"type": "text"` items of a list
`content`; return a string `content` directly; otherwise fall back to
`json.dumps` of the whole payload. -/
def extract_text_from_content (m : ClaudeMsg) : Str :=
  match m.content with
  | some (.list items) =>
      List.intercalate " ".toList (items.filterMap (fun it =>
        match it with
        | .item ty text => if ty = some "text".toList then some (text.getD []) else none
        | .nondict => none))
  | some (.str s) => s
  | some .other => dumpsClaudeMsg m
  | none => dumpsClaudeMsg m

/-- A Format A JSONL record, keeping the fields the program reads.
`timestamp` is the value computed by the parser's timestamp block (`none`
when the record has no truthy `timestamp` field; otherwise the parsed value,
with parse failures already replaced by the ingestion clock).  `cwd` is the
`cwd` field when the key is present. -/
structure ClaudeRecord where
  type : Option Str := none
  timestamp : Option Nat := none
  cwd : Option Str := none
  message : ClaudeMsg := {}
  uuid : Option Str := none
  parentUuid : Option Str := none
deriving DecidableEq, Repr

/-- A Format B JSONL record, keeping the fields the program reads. -/
structure CodexRecord where
  type : Option Str := none
  timestamp : Option Nat := none
  payload : CodexPayload := {}
deriving DecidableEq, Repr

/-- The raw `content` of a produced message: the structured payload standing
for its `json.dumps` serialization (`json.loads` of it is the payload
itself). -/
inductive RawContent where
  | claude (m : ClaudeMsg)
  | codex (p : CodexPayload)
deriving DecidableEq, Repr

/-- `json.dumps` of a raw content payload. -/
def dumpsRaw : RawContent → Str
  | .claude m => dumpsClaudeMsg m
  | .codex p => dumpsCodexPayload p

/-- One produced message (the dicts appended to `messages` by the parsers). -/
structure ParsedMessage where
  type : Str
  content : RawContent
  content_preview : Str
  timestamp : Nat
  sequence : Nat
  uuid : Option Str := none
  parent_uuid : Option Str := none
  model : Option Str := none
  usage_input_tokens : Option Nat := none
  usage_output_tokens : Option Nat := none
deriving DecidableEq, Repr

/-- The session-metadata dict produced by a parser. -/
structure SessionMeta where
  id : Str
  source : Str
  cwd : Option Str := none
  project : Option Str := none
  model : Option Str := none
  created_at : Option Nat := none
  updated_at : Option Nat := none
  file_path : Str
  display : Str
  message_count : Nat
deriving DecidableEq, Repr

/-- A parser's non-`None` result: `(session_metadata, ordered_messages)`. -/
structure ParsedSession where
  session : SessionMeta
  messages : List ParsedMessage
deriving DecidableEq, Repr



/-!  ### `services/claude_parser.py` -/

/-- The plan-injection preamble filtered by the Claude parser. -/
def PLAN_PREFIX : Str := "Implement the following plan:".toList

/-- The display-text sentinel. -/
def NO_USER_MESSAGE : Str := "No user message".toList

/-- The message-producing part of the `parse_claude_session` loop state: the
accumulated message list, the shared sequence counter, the captured first
user message, and the session model.  These fields are written only by the
`user`/`assistant` dispatch branches, never by the per-record metadata
updates, so they are grouped separately from the timestamp/cwd metadata. -/
structure ClaudeCore where
  messages : List ParsedMessage := []
  seq : Nat := 0
  firstUser : Option Str := none
  model : Option Str := none
deriving DecidableEq, Repr

/-- The loop state of `parse_claude_session`. -/
structure ClaudeState where
  core : ClaudeCore := {}
  created_at : Option Nat := none
  updated_at : Option Nat := none
  cwd : Option Str := none
deriving DecidableEq, Repr

/-- The first-user-message qualification test of `parse_claude_session`
(lines 66–71): the tag-stripped text is non-empty, does not start with the
plan-injection preamble, and the raw text is not a system message. -/
def claudeQualifies (m : ClaudeMsg) : Bool :=
  !(strip_xml_tags (extract_text_from_content m)).isEmpty
    && !(PLAN_PREFIX.isPrefixOf (strip_xml_tags (extract_text_from_content m)))
    && !(is_system_message (extract_text_from_content m))

/-- The `first_user_message` value after a `user` record (lines 64–72): when
still unset (`None`-or-empty) and the message qualifies, the tag-stripped
text truncated to 200 characters; otherwise unchanged. -/
def claudeFirstUserVal (c : ClaudeCore) (m : ClaudeMsg) : Option Str :=
  if optStrFalsy c.firstUser then
    if claudeQualifies m then
      some ((strip_xml_tags (extract_text_from_content m)).take 200)
    else c.firstUser
  else c.firstUser

/-- The session `model` value after an `assistant` record (lines 89–91):
taken from the message when still unset and the message carries one. -/
def claudeModelVal (c : ClaudeCore) (m : ClaudeMsg) : Option Str :=
  if optStrFalsy c.model && !(m.model = none : Bool) then m.model else c.model

/-- The type dispatch of the `parse_claude_session` loop
(`claude_parser.py` lines 58–110): `user` records may capture the first
qualifying user message and append a user message; `assistant` records may
set the model and append an assistant message; every other record type
leaves this state untouched. -/
def claudeDispatch (now : Nat) (c : ClaudeCore) (e : ClaudeRecord) :
    ClaudeCore :=
  if e.type = some "user".toList then
    { messages := c.messages ++ [{
        type := "user".toList,
        content := .claude e.message,
        content_preview := create_content_preview (dumpsClaudeMsg e.message),
        timestamp := e.timestamp.getD now,
        sequence := c.seq,
        uuid := e.uuid,
        parent_uuid := e.parentUuid }],
      seq := c.seq + 1,
      firstUser := claudeFirstUserVal c e.message,
      model := c.model }
  else if e.type = some "assistant".toList then
    { messages := c.messages ++ [{
        type := "assistant".toList,
        content := .claude e.message,
        content_preview := create_content_preview (dumpsClaudeMsg e.message),
        timestamp := e.timestamp.getD now,
        sequence := c.seq,
        uuid := e.uuid,
        parent_uuid := e.parentUuid,
        model := e.message.model,
        usage_input_tokens := e.message.usage_input,
        usage_output_tokens := e.message.usage_output }],
      seq := c.seq + 1,
      firstUser := c.firstUser,
      model := claudeModelVal c e.message }
  else c

/-- One iteration of the `parse_claude_session` record loop
(`claude_parser.py` lines 38–110): update `created_at`/`updated_at`/`cwd`
from every record (lines 49–56), then dispatch on the record type. -/
def claudeProcessRecord (now : Nat) (st : ClaudeState) (e : ClaudeRecord) :
    ClaudeState :=
  let st := match e.timestamp with
    | some t =>
        { st with
          created_at := if st.created_at = none then some t else st.created_at,
          updated_at := some t }
    | none => st
  let st := match e.cwd with
    | some v => if optStrFalsy st.cwd then { st with cwd := some v } else st
    | none => st
  { st with core := claudeDispatch now st.core e }

/-- `parse_claude_session` (`claude_parser.py`): fold the record loop over
the file's records, derive display text and message count, and return `none`
for a session with no messages.  `stem`/`path` stand for `file_path.stem`
and `str(file_path)`; `now` is the ingestion clock. -/
def parse_claude_session (stem path : Str) (now : Nat)
    (records : List ClaudeRecord) : Option ParsedSession :=
  let st := records.foldl (claudeProcessRecord now) {}
  let display := if optStrFalsy st.core.firstUser then NO_USER_MESSAGE
    else st.core.firstUser.getD []
  if st.core.messages.length = 0 then none
  else some {
    session := {
      id := stem,
      source := "claude".toList,
      cwd := st.cwd,
      model := st.core.model,
      created_at := st.created_at,
      updated_at := st.updated_at,
      file_path := path,
      display := display,
      message_count := st.core.messages.length },
    messages := st.core.messages }

/-!  ### `services/codex_parser.py` -/

/-- The message-producing part of the `parse_codex_session` loop state,
written only by the `response_item` branch. -/
structure CodexCore where
  messages : List ParsedMessage := []
  seq : Nat := 0
  firstUser : Option Str := none
deriving DecidableEq, Repr

/-- The loop state of `parse_codex_session`. -/
structure CodexState where
  core : CodexCore := {}
  id : Option Str := none
  cwd : Option Str := none
  project : Option Str := none
  model : Option Str := none
  created_at : Option Nat := none
  updated_at : Option Nat := none
deriving DecidableEq, Repr

/-- Text extraction for a Format B message: concatenate (with no separator)
the `text` of items typed `input_text`/`text`/`output_text`
(`codex_parser.py` lines 73–78). -/
def codexItemText (items : List ContentItem) : Str :=
  (items.filterMap (fun it =>
    match it with
    | .item ty text =>
        if ty = some "input_text".toList ∨ ty = some "text".toList ∨
            ty = some "output_text".toList then
          some (text.getD [])
        else none
    | .nondict => none)).flatten

/-- The `first_user_message` value after a Format B `message` response item
(`codex_parser.py` lines 80–84): captured when the role is `user`, it is
still unset, the raw text has non-whitespace content, the tag-stripped text
is non-empty, and the raw text is not a system message. -/
def codexFirstUserVal (c : CodexCore) (p : CodexPayload) : Option Str :=
  if p.role = some "user".toList && optStrFalsy c.firstUser
      && !(pyStrip (codexItemText p.content)).isEmpty
      && !(strip_xml_tags (codexItemText p.content)).isEmpty
      && !(is_system_message (codexItemText p.content)) then
    some ((strip_xml_tags (codexItemText p.content)).take 200)
  else c.firstUser

/-- The `response_item` dispatch of the `parse_codex_session` loop
(`codex_parser.py` lines 63–121): subtype `message` with a user/assistant
role may capture the first qualifying user message and appends a message
typed by the role; `function_call` appends an assistant message;
`function_call_output` appends a tool-result message; anything else is
ignored. -/
def codexDispatch (now : Nat) (c : CodexCore) (e : CodexRecord) : CodexCore :=
  if e.type = some "response_item".toList then
    if e.payload.ptype = some "message".toList ∧
        (e.payload.role = some "user".toList ∨
          e.payload.role = some "assistant".toList) then
      { messages := c.messages ++ [{
          type := (e.payload.role.getD []),
          content := .codex e.payload,
          content_preview := create_content_preview (dumpsCodexPayload e.payload),
          timestamp := e.timestamp.getD now,
          sequence := c.seq }],
        seq := c.seq + 1,
        firstUser := codexFirstUserVal c e.payload }
    else if e.payload.ptype = some "function_call".toList then
      { messages := c.messages ++ [{
          type := "assistant".toList,
          content := .codex e.payload,
          content_preview := create_content_preview (dumpsCodexPayload e.payload),
          timestamp := e.timestamp.getD now,
          sequence := c.seq }],
        seq := c.seq + 1,
        firstUser := c.firstUser }
    else if e.payload.ptype = some "function_call_output".toList then
      { messages := c.messages ++ [{
          type := "tool_result".toList,
          content := .codex e.payload,
          content_preview := create_content_preview (dumpsCodexPayload e.payload),
          timestamp := e.timestamp.getD now,
          sequence := c.seq }],
        seq := c.seq + 1,
        firstUser := c.firstUser }
    else c
  else c

/-- One iteration of the `parse_codex_session` record loop
(`codex_parser.py` lines 38–125): a `session_meta` record sets the metadata
fields (id with filename-stem default, cwd doubling as project, timestamps,
and a "Codex (provider)" model label); a `response_item` record dispatches
on its payload subtype; afterwards every record with a timestamp updates
`updated_at`. -/
def codexProcessRecord (stem : Str) (now : Nat) (st : CodexState)
    (e : CodexRecord) : CodexState :=
  let st :=
    if e.type = some "session_meta".toList then
      { st with
        id := some (e.payload.id.getD stem),
        cwd := e.payload.cwd,
        project := e.payload.cwd,
        created_at := e.timestamp,
        updated_at := e.timestamp,
        model := match e.payload.model_provider with
          | some prov =>
              if prov ≠ [] then some ("Codex (".toList ++ prov ++ [')'])
              else st.model
          | none => st.model }
    else { st with core := codexDispatch now st.core e }
  match e.timestamp with
  | some t => { st with updated_at := some t }
  | none => st

/-- `parse_codex_session` (`codex_parser.py`): fold the record loop, derive
display text, message count and the session-id fallback.  The function
always returns a `(session, messages)` pair — it has no empty-session `None`
path (the `Option` in the result type only mirrors the coordinator's dead
`is None` check). -/
def parse_codex_session (stem path : Str) (now : Nat)
    (records : List CodexRecord) : Option ParsedSession :=
  let st := records.foldl (codexProcessRecord stem now) {}
  let display := if optStrFalsy st.core.firstUser then NO_USER_MESSAGE
    else st.core.firstUser.getD []
  let sid := if optStrFalsy st.id then stem else st.id.getD []
  some {
    session := {
      id := sid,
      source := "codex".toList,
      cwd := st.cwd,
      project := st.project,
      model := st.model,
      created_at := st.created_at,
      updated_at := st.updated_at,
      file_path := path,
      display := display,
      message_count := st.core.messages.length },
    messages := st.core.messages }

/-!  ### Parser structure lemmas -/

lemma claudeProcessRecord_core (now : Nat) (st : ClaudeState)
    (e : ClaudeRecord) :
    (claudeProcessRecord now st e).core = claudeDispatch now st.core e := by
  unfold claudeProcessRecord
  rcases e.timestamp with _ | t <;> rcases e.cwd with _ | v <;>
    simp only [] <;> first | (split <;> rfl) | rfl

lemma codexProcessRecord_core (stem : Str) (now : Nat) (st : CodexState)
    (e : CodexRecord) :
    (codexProcessRecord stem now st e).core = codexDispatch now st.core e := by
  unfold codexProcessRecord
  by_cases hm : e.type = some "session_meta".toList
  · have hr : ¬ e.type = some "response_item".toList := by rw [hm]; decide
    unfold codexDispatch
    rw [if_neg hr]
    simp only [hm, if_pos]
    rcases e.timestamp with _ | t <;> rfl
  · simp only [hm, ite_false]
    rcases e.timestamp with _ | t <;> rfl

lemma claude_foldl_core (now : Nat) (records : List ClaudeRecord) :
    ∀ st : ClaudeState,
      (records.foldl (claudeProcessRecord now) st).core =
        records.foldl (claudeDispatch now) st.core := by
  induction records with
  | nil => intro st; rfl
  | cons e rest ih =>
    intro st
    simp only [List.foldl_cons, ih, claudeProcessRecord_core]

lemma codex_foldl_core (stem : Str) (now : Nat) (records : List CodexRecord) :
    ∀ st : CodexState,
      (records.foldl (codexProcessRecord stem now) st).core =
        records.foldl (codexDispatch now) st.core := by
  induction records with
  | nil => intro st; rfl
  | cons e rest ih =>
    intro st
    simp only [List.foldl_cons, ih, codexProcessRecord_core]

/-- Each Format A dispatch step either leaves the message list and counter
untouched or appends exactly one message stamped with the current counter. -/
lemma claudeDispatch_shape (now : Nat) (c : ClaudeCore) (e : ClaudeRecord) :
    ((claudeDispatch now c e).messages = c.messages ∧
      (claudeDispatch now c e).seq = c.seq) ∨
    (∃ m : ParsedMessage, m.sequence = c.seq ∧
      (claudeDispatch now c e).messages = c.messages ++ [m] ∧
      (claudeDispatch now c e).seq = c.seq + 1) := by
  unfold claudeDispatch
  split
  · right; exact ⟨_, rfl, rfl, rfl⟩
  · split
    · right; exact ⟨_, rfl, rfl, rfl⟩
    · left; exact ⟨rfl, rfl⟩

/-- Each Format B dispatch step either leaves the message list and counter
untouched or appends exactly one message stamped with the current counter. -/
lemma codexDispatch_shape (now : Nat) (c : CodexCore) (e : CodexRecord) :
    ((codexDispatch now c e).messages = c.messages ∧
      (codexDispatch now c e).seq = c.seq) ∨
    (∃ m : ParsedMessage, m.sequence = c.seq ∧
      (codexDispatch now c e).messages = c.messages ++ [m] ∧
      (codexDispatch now c e).seq = c.seq + 1) := by
  unfold codexDispatch
  split
  · split
    · right; exact ⟨_, rfl, rfl, rfl⟩
    · split
      · right; exact ⟨_, rfl, rfl, rfl⟩
      · split
        · right; exact ⟨_, rfl, rfl, rfl⟩
        · left; exact ⟨rfl, rfl⟩
  · left; exact ⟨rfl, rfl⟩

/-- The sequence invariant (`seq` counts the messages, whose sequence fields
enumerate `0..seq-1`) is preserved by folding a shape-respecting step over a
`ClaudeCore`. -/
lemma claude_fold_inv {α : Type} (step : ClaudeCore → α → ClaudeCore)
    (hstep : ∀ c e, ((step c e).messages = c.messages ∧ (step c e).seq = c.seq) ∨
      (∃ m : ParsedMessage, m.sequence = c.seq ∧
        (step c e).messages = c.messages ++ [m] ∧ (step c e).seq = c.seq + 1))
    (records : List α) :
    ∀ c : ClaudeCore, c.seq = c.messages.length →
      c.messages.map (·.sequence) = List.range c.seq →
      (records.foldl step c).seq = (records.foldl step c).messages.length ∧
      (records.foldl step c).messages.map (·.sequence) =
        List.range (records.foldl step c).seq := by
  induction records with
  | nil => intro c h1 h2; exact ⟨h1, h2⟩
  | cons e rest ih =>
    intro c h1 h2
    simp only [List.foldl_cons]
    rcases hstep c e with ⟨hm, hs⟩ | ⟨m, hm0, hm, hs⟩
    · exact ih _ (by rw [hm, hs, h1]) (by rw [hm, hs, h2])
    · refine ih _ ?_ ?_
      · rw [hm, hs, List.length_append, h1]; rfl
      · rw [hm, hs, List.map_append, h2, List.range_succ]
        simp [hm0]

/-- Sequence invariant for the Format B fold (same statement over
`CodexCore`). -/
lemma codex_fold_inv {α : Type} (step : CodexCore → α → CodexCore)
    (hstep : ∀ c e, ((step c e).messages = c.messages ∧ (step c e).seq = c.seq) ∨
      (∃ m : ParsedMessage, m.sequence = c.seq ∧
        (step c e).messages = c.messages ++ [m] ∧ (step c e).seq = c.seq + 1))
    (records : List α) :
    ∀ c : CodexCore, c.seq = c.messages.length →
      c.messages.map (·.sequence) = List.range c.seq →
      (records.foldl step c).seq = (records.foldl step c).messages.length ∧
      (records.foldl step c).messages.map (·.sequence) =
        List.range (records.foldl step c).seq := by
  induction records with
  | nil => intro c h1 h2; exact ⟨h1, h2⟩
  | cons e rest ih =>
    intro c h1 h2
    simp only [List.foldl_cons]
    rcases hstep c e with ⟨hm, hs⟩ | ⟨m, hm0, hm, hs⟩
    · exact ih _ (by rw [hm, hs, h1]) (by rw [hm, hs, h2])
    · refine ih _ ?_ ?_
      · rw [hm, hs, List.length_append, h1]; rfl
      · rw [hm, hs, List.map_append, h2, List.range_succ]
        simp [hm0]

/-!  ### `utils/paths.py` — project derivation, and the store model -/

/-- `pathlib.Path.parts` for a POSIX path string. -/
def pyPathParts (p : Str) : List Str :=
  match p with
  | '/' :: rest => "/".toList :: ((rest.splitOn '/').filter (· ≠ []))
  | _ => (p.splitOn '/').filter (· ≠ [])

/-- `get_project_from_path` (`utils/paths.py`): prefer a truthy `cwd`,
falling back to decoding the directory name after the `projects` path
component. -/
def get_project_from_path (path : Str) (cwd : Option Str) : Option Str :=
  let fallback :=
    match (pyPathParts path).findIdx? (· = "projects".toList) with
    | some i =>
        match (pyPathParts path).get? (i + 1) with
        | some enc => some (decode_project_path enc)
        | none => none
    | none => none
  match cwd with
  | some c => if c ≠ [] then some c else fallback
  | none => fallback

/-- A row of the `sessions` table (`models.py`), with `id` the primary
key. -/
structure SessionRow where
  id : Str
  source : Str
  project : Option Str := none
  cwd : Option Str := none
  model : Option Str := none
  display : Option Str := none
  created_at : Nat
  updated_at : Nat
  message_count : Nat
  subagent_count : Nat
  has_tool_results : Bool := false
  file_path : Str
deriving DecidableEq, Repr

/-- A row of the `messages` table (`models.py`); the generated UUID primary
key is left implicit (it never collides). -/
structure MessageRow where
  session_id : Str
  agent_id : Option Str := none
  type : Str
  content : RawContent
  content_preview : Str
  timestamp : Nat
  sequence : Nat
  parent_uuid : Option Str := none
  model : Option Str := none
  usage_input_tokens : Option Nat := none
  usage_output_tokens : Option Nat := none
deriving DecidableEq, Repr

/-- A row of the `subagents` table (`models.py`).  `first_message` is a
plain `Text` column (`models.py` line 95, `Mapped[str | None]`), so it can
hold only a string; binding any other value raises at commit. -/
structure SubagentRow where
  session_id : Str
  agent_id : Str
  message_count : Nat := 0
  first_message : Option Str := none
  file_path : Option Str := none
deriving DecidableEq, Repr

/-- A row of the `associated_files` table (`models.py`). -/
structure AssocRow where
  session_id : Str
  file_type : Str
  content : Str
  file_path : Str
deriving DecidableEq, Repr

/-- The persistent store: the four tables the indexer writes.  A per-file
commit appends rows; a rollback leaves the store unchanged; a commit raises
exactly when it would insert a session whose primary-key `id` already
exists. -/
structure Store where
  sessions : List SessionRow := []
  messages : List MessageRow := []
  subagents : List SubagentRow := []
  associated : List AssocRow := []
deriving DecidableEq, Repr

/-!  ### `services/indexer.py` -/

/-- One Format A candidate file, as the coordinator sees it: its path and
stem, the outcome of reading its records (`none` = the read raises), the
subagent files found under `<project>/<session-id>/subagents/` (agent id =
file stem, with its path), and the associated files found by
`find_associated_files` (file-type key, path, and content — `none` = the
`read_text` raises and the file is skipped with a warning). -/
structure ClaudeFile where
  stem : Str := []
  path : Str := []
  content : Option (List ClaudeRecord) := none
  subagentFiles : List (Str × Str) := []
  assocFiles : List (Str × Str × Option Str) := []

/-- One Format B candidate file. -/
structure CodexFile where
  stem : Str := []
  path : Str := []
  content : Option (List CodexRecord) := none

/-- What processing one file did: committed a session with `n` messages,
skipped a duplicate, skipped an empty parse, or caught an exception and
rolled back. -/
inductive StepOutcome where
  | committed (nMsgs : Nat)
  | skippedDup
  | skippedEmpty
  | errored
deriving DecidableEq, Repr

/-- The rows one file's transaction would insert: the session row and its
messages, subagent references and associated files. -/
structure PreparedCommit where
  row : SessionRow
  msgs : List MessageRow := []
  subs : List SubagentRow := []
  assoc : List AssocRow := []
deriving DecidableEq, Repr

/-- The store-independent part of processing one file: the read raised, the
parse said "no content", or a prepared transaction. -/
inductive ParseOut where
  | readError
  | emptyParse
  | parsed (pc : PreparedCommit)
deriving DecidableEq, Repr

/-- The common per-file loop body of `_index_claude_sessions` and
`_index_codex_sessions` (`indexer.py` lines 106–205 and 216–280): skip when
not forcing and a session with this `file_path` exists; otherwise a raised
read errors the file, an empty parse is skipped silently, and a prepared
transaction commits — unless its session `id` collides with an existing
primary key, in which case the commit raises and the whole transaction is
rolled back and counted as one error. -/
def genIndexStep {φ : Type} (path : φ → Str) (pf : φ → ParseOut)
    (force : Bool) (s : Store) (f : φ) : Store × StepOutcome :=
  if ¬ force ∧ s.sessions.any (fun row => row.file_path = path f) then
    (s, .skippedDup)
  else
    match pf f with
    | .readError => (s, .errored)
    | .emptyParse => (s, .skippedEmpty)
    | .parsed pc =>
        if s.sessions.any (fun r => r.id = pc.row.id) then
          (s, .errored)
        else
          ({ s with
             sessions := s.sessions ++ [pc.row],
             messages := s.messages ++ pc.msgs,
             subagents := s.subagents ++ pc.subs,
             associated := s.associated ++ pc.assoc },
           .committed pc.msgs.length)

/-- The Format A transaction for one file (`indexer.py` lines 116–193):
parse, derive the project (preferring the session's `cwd`), and build the
session row (id = the parser's id, i.e. the filename stem) with its
messages, one subagent reference per discovered subagent file, and one
associated-file row per readable associated file. -/
def claudePrepare (now : Nat) (f : ClaudeFile) : ParseOut :=
  match f.content with
  | none => .readError
  | some records =>
    match parse_claude_session f.stem f.path now records with
    | none => .emptyParse
    | some parsed =>
      let sd := parsed.session
      let project := match get_project_from_path f.path sd.cwd with
        | some p => if p ≠ [] then some p else sd.project
        | none => sd.project
      .parsed {
        row := {
          id := sd.id,
          source := sd.source,
          project := project,
          cwd := sd.cwd,
          model := sd.model,
          display := some sd.display,
          created_at := sd.created_at.getD now,
          updated_at := sd.updated_at.getD now,
          message_count := sd.message_count,
          subagent_count := f.subagentFiles.length,
          file_path := sd.file_path },
        msgs := parsed.messages.map (fun m => {
          session_id := sd.id,
          type := m.type,
          content := m.content,
          content_preview := m.content_preview,
          timestamp := m.timestamp,
          sequence := m.sequence,
          parent_uuid := m.parent_uuid,
          model := m.model,
          usage_input_tokens := m.usage_input_tokens,
          usage_output_tokens := m.usage_output_tokens }),
        subs := f.subagentFiles.map (fun af =>
          { session_id := sd.id, agent_id := af.1, file_path := some af.2 }),
        assoc := f.assocFiles.filterMap (fun a =>
          match a.2.2 with
          | some content => some { session_id := sd.id, file_type := a.1,
                                   content := content, file_path := a.2.1 }
          | none => none) }

/-- The Format B transaction for one file (`indexer.py` lines 226–269).
Note line 236: the committed session row's `id` is always the filename stem,
regardless of the id in the parsed session metadata; the messages are
likewise keyed by the stem. -/
def codexPrepare (now : Nat) (f : CodexFile) : ParseOut :=
  match f.content with
  | none => .readError
  | some records =>
    match parse_codex_session f.stem f.path now records with
    | none => .emptyParse
    | some parsed =>
      let sd := parsed.session
      let session_id := f.stem
      .parsed {
        row := {
          id := session_id,
          source := sd.source,
          project := sd.project,
          cwd := sd.cwd,
          model := sd.model,
          display := some sd.display,
          created_at := sd.created_at.getD now,
          updated_at := sd.updated_at.getD now,
          message_count := sd.message_count,
          subagent_count := 0,
          file_path := sd.file_path },
        msgs := parsed.messages.map (fun m => {
          session_id := session_id,
          type := m.type,
          content := m.content,
          content_preview := m.content_preview,
          timestamp := m.timestamp,
          sequence := m.sequence,
          parent_uuid := m.parent_uuid }) }

/-- One iteration of the `_index_claude_sessions` loop. -/
def claudeIndexFile (now : Nat) (force : Bool) (s : Store) (f : ClaudeFile) :
    Store × StepOutcome :=
  genIndexStep ClaudeFile.path (claudePrepare now) force s f

/-- One iteration of the `_index_codex_sessions` loop. -/
def codexIndexFile (now : Nat) (force : Bool) (s : Store) (f : CodexFile) :
    Store × StepOutcome :=
  genIndexStep CodexFile.path (codexPrepare now) force s f

/-- The aggregate counters of one per-format indexing loop. -/
structure RunCounts where
  sessions : Nat := 0
  messages : Nat := 0
  errors : Nat := 0
deriving DecidableEq, Repr

/-- Fold one step outcome into the counters (`indexer.py` lines 196–205). -/
def applyOutcome (c : RunCounts) : StepOutcome → RunCounts
  | .committed n => { c with sessions := c.sessions + 1, messages := c.messages + n }
  | .errored => { c with errors := c.errors + 1 }
  | _ => c

/-- A per-format indexing loop: process each candidate file in order,
threading the store and accumulating counters. -/
def runFold {φ : Type} (step : Store → φ → Store × StepOutcome)
    (s : Store × RunCounts) (files : List φ) : Store × RunCounts :=
  files.foldl (fun acc f =>
    ((step acc.1 f).1, applyOutcome acc.2 (step acc.1 f).2)) s

/-- The store thread of a per-format indexing loop. -/
def runStore {φ : Type} (step : Store → φ → Store × StepOutcome)
    (s : Store) (files : List φ) : Store :=
  files.foldl (fun s f => (step s f).1) s

/-- `_index_claude_sessions`: the Format A loop over its candidate files. -/
def claudeRun (now : Nat) (force : Bool) (s : Store) (files : List ClaudeFile) :
    Store × RunCounts :=
  runFold (claudeIndexFile now force) (s, {}) files

/-- `_index_codex_sessions`: the Format B loop over its candidate files. -/
def codexRun (now : Nat) (force : Bool) (s : Store) (files : List CodexFile) :
    Store × RunCounts :=
  runFold (codexIndexFile now force) (s, {}) files

/-- The store after `index_all_sessions` (`indexer.py` lines 34–97): the
Format A loop, then the Format B loop. -/
def indexAllStore (now : Nat) (force : Bool) (s : Store)
    (cf : List ClaudeFile) (xf : List CodexFile) : Store :=
  (codexRun now force (claudeRun now force s cf).1 xf).1

/-!  ### Coordinator structure lemmas -/

/-- Pointwise sum of run counters. -/
def addCounts (a b : RunCounts) : RunCounts :=
  { sessions := a.sessions + b.sessions,
    messages := a.messages + b.messages,
    errors := a.errors + b.errors }

lemma runFold_fst {φ : Type} (step : Store → φ → Store × StepOutcome)
    (files : List φ) : ∀ s c, (runFold step (s, c) files).1 = runStore step s files := by
  induction files with
  | nil => intro s c; rfl
  | cons f rest ih => intro s c; exact ih _ _

lemma applyOutcome_add (c : RunCounts) (o : StepOutcome) :
    applyOutcome c o = addCounts c (applyOutcome {} o) := by
  cases o <;> simp [applyOutcome, addCounts, RunCounts.mk.injEq] <;> omega

lemma addCounts_assoc (a b c : RunCounts) :
    addCounts (addCounts a b) c = addCounts a (addCounts b c) := by
  simp [addCounts, Nat.add_assoc]

lemma addCounts_zero (a : RunCounts) : addCounts a {} = a := by
  simp [addCounts]

lemma runFold_counts {φ : Type} (step : Store → φ → Store × StepOutcome)
    (files : List φ) : ∀ s c,
    (runFold step (s, c) files).2 = addCounts c (runFold step (s, {}) files).2 := by
  induction files with
  | nil =>
    intro s c
    show c = addCounts c {}
    rw [addCounts_zero]
  | cons f rest ih =>
    intro s c
    show (runFold step ((step s f).1, applyOutcome c (step s f).2) rest).2 = _
    rw [ih]
    conv_rhs =>
      rw [show (runFold step (s, {}) (f :: rest)).2 =
        (runFold step ((step s f).1, applyOutcome {} (step s f).2) rest).2 from rfl]
    rw [ih ((step s f).1) (applyOutcome {} (step s f).2)]
    rw [applyOutcome_add, addCounts_assoc]

lemma genStep_mono {φ : Type} (path : φ → Str) (pf : φ → ParseOut)
    (force : Bool) (s : Store) (f : φ) :
    s.sessions ⊆ (genIndexStep path pf force s f).1.sessions := by
  unfold genIndexStep
  split
  · exact fun x h => h
  · split
    · exact fun x h => h
    · exact fun x h => h
    · split
      · exact fun x h => h
      · exact List.subset_append_left _ _

lemma runStore_mono {φ : Type} (step : Store → φ → Store × StepOutcome)
    (hmono : ∀ s f, s.sessions ⊆ (step s f).1.sessions) (files : List φ) :
    ∀ s, s.sessions ⊆ (runStore step s files).sessions := by
  induction files with
  | nil => intro s; exact fun x h => h
  | cons f rest ih =>
    intro s
    exact fun x h => ih ((step s f).1) (hmono s f h)

/-- A file is "settled" with respect to a store when re-processing it
without forcing cannot change the store: its read raises, its parse is
empty, its path is already indexed, or its prepared session id collides
with an existing row. -/
def Settled {φ : Type} (path : φ → Str) (pf : φ → ParseOut) (f : φ)
    (S : Store) : Prop :=
  pf f = .readError ∨ pf f = .emptyParse ∨
  (∃ r ∈ S.sessions, r.file_path = path f) ∨
  (∃ pc, pf f = .parsed pc ∧ ∃ r ∈ S.sessions, r.id = pc.row.id)

/-- The forcing-proof variant: the path disjunct is not available, since a
forced run ignores the duplicate-path lookup. -/
def SettledStrong {φ : Type} (path : φ → Str) (pf : φ → ParseOut) (f : φ)
    (S : Store) : Prop :=
  pf f = .readError ∨ pf f = .emptyParse ∨
  (∃ pc, pf f = .parsed pc ∧ ∃ r ∈ S.sessions, r.id = pc.row.id)

lemma settled_of_subset {φ : Type} {path : φ → Str} {pf : φ → ParseOut}
    {f : φ} {S S' : Store} (h : Settled path pf f S)
    (hs : S.sessions ⊆ S'.sessions) : Settled path pf f S' := by
  rcases h with h | h | ⟨r, hr, he⟩ | ⟨pc, hpc, r, hr, he⟩
  · exact Or.inl h
  · exact Or.inr (Or.inl h)
  · exact Or.inr (Or.inr (Or.inl ⟨r, hs hr, he⟩))
  · exact Or.inr (Or.inr (Or.inr ⟨pc, hpc, r, hs hr, he⟩))

lemma settledStrong_of_subset {φ : Type} {path : φ → Str} {pf : φ → ParseOut}
    {f : φ} {S S' : Store} (h : SettledStrong path pf f S)
    (hs : S.sessions ⊆ S'.sessions) : SettledStrong path pf f S' := by
  rcases h with h | h | ⟨pc, hpc, r, hr, he⟩
  · exact Or.inl h
  · exact Or.inr (Or.inl h)
  · exact Or.inr (Or.inr ⟨pc, hpc, r, hs hr, he⟩)

/-- Processing a file leaves it settled with respect to any store containing
the result. -/
lemma genStep_settles {φ : Type} (path : φ → Str) (pf : φ → ParseOut)
    (force : Bool) (T S : Store) (f : φ)
    (hT : T.sessions ⊆ S.sessions)
    (hres : (genIndexStep path pf force T f).1.sessions ⊆ S.sessions) :
    Settled path pf f S := by
  revert hres
  unfold genIndexStep
  split
  · next hc =>
    intro _
    obtain ⟨r, hr, he⟩ := List.any_eq_true.mp hc.2
    exact Or.inr (Or.inr (Or.inl ⟨r, hT hr, of_decide_eq_true he⟩))
  · split
    · intro _; exact Or.inl (by assumption)
    · intro _; exact Or.inr (Or.inl (by assumption))
    · next pc hpc =>
      split
      · next hc =>
        intro _
        obtain ⟨r, hr, he⟩ := List.any_eq_true.mp hc
        exact Or.inr (Or.inr (Or.inr ⟨pc, hpc, r, hT hr, of_decide_eq_true he⟩))
      · intro hres
        refine Or.inr (Or.inr (Or.inr ⟨pc, hpc, pc.row, ?_, rfl⟩))
        exact hres (by simp)

/-- Re-processing a settled file without forcing leaves the store
unchanged. -/
lemma genStep_idem {φ : Type} (path : φ → Str) (pf : φ → ParseOut)
    (f : φ) (S : Store) (h : Settled path pf f S) :
    (genIndexStep path pf false S f).1 = S := by
  unfold genIndexStep
  split
  · rfl
  · next hnc =>
    rcases h with h | h | ⟨r, hr, he⟩ | ⟨pc, hpc, r, hr, he⟩
    · rw [h]
    · rw [h]
    · exact absurd ⟨by decide, List.any_eq_true.mpr ⟨r, hr, decide_eq_true he⟩⟩ hnc
    · have hany : (S.sessions.any fun q => decide (q.id = pc.row.id)) = true :=
        List.any_eq_true.mpr ⟨r, hr, decide_eq_true he⟩
      simp [hpc, hany]

/-- Re-processing a strongly settled file with forcing leaves the store
unchanged (every such file errors or skips instead of re-inserting). -/
lemma genStep_idem_force {φ : Type} (path : φ → Str) (pf : φ → ParseOut)
    (f : φ) (S : Store) (h : SettledStrong path pf f S) :
    (genIndexStep path pf true S f).1 = S := by
  unfold genIndexStep
  rw [if_neg (by simp)]
  rcases h with h | h | ⟨pc, hpc, r, hr, he⟩
  · rw [h]
  · rw [h]
  · have hany : (S.sessions.any fun q => decide (q.id = pc.row.id)) = true :=
      List.any_eq_true.mpr ⟨r, hr, decide_eq_true he⟩
    simp [hpc, hany]

lemma runStore_idem {φ : Type} (path : φ → Str) (pf : φ → ParseOut)
    (files : List φ) (S : Store)
    (h : ∀ f ∈ files, Settled path pf f S) :
    runStore (genIndexStep path pf false) S files = S := by
  induction files with
  | nil => rfl
  | cons g rest ih =>
    show runStore _ (genIndexStep path pf false S g).1 rest = S
    rw [genStep_idem path pf g S (h g (by simp))]
    exact ih (fun f hf => h f (by simp [hf]))

lemma runStore_idem_force {φ : Type} (path : φ → Str) (pf : φ → ParseOut)
    (files : List φ) (S : Store)
    (h : ∀ f ∈ files, SettledStrong path pf f S) :
    runStore (genIndexStep path pf true) S files = S := by
  induction files with
  | nil => rfl
  | cons g rest ih =>
    show runStore _ (genIndexStep path pf true S g).1 rest = S
    rw [genStep_idem_force path pf g S (h g (by simp))]
    exact ih (fun f hf => h f (by simp [hf]))

/-- After a run, every processed file is settled with respect to any store
containing the run's result. -/
lemma run_settles {φ : Type} (path : φ → Str) (pf : φ → ParseOut)
    (force : Bool) (files : List φ) :
    ∀ (S₀ S : Store), S₀.sessions ⊆ S.sessions →
      (runStore (genIndexStep path pf force) S₀ files).sessions ⊆ S.sessions →
      ∀ f ∈ files, Settled path pf f S := by
  induction files with
  | nil => intro S₀ S _ _ f hf; cases hf
  | cons g rest ih =>
    intro S₀ S h0 hrun f hf
    have hstep : (genIndexStep path pf force S₀ g).1.sessions ⊆ S.sessions := by
      intro x hx
      exact hrun (runStore_mono _ (genStep_mono path pf force) rest _ hx)
    rcases List.mem_cons.mp hf with he | he
    · rw [he]
      exact genStep_settles path pf force S₀ S g h0 hstep
    · exact ih _ S hstep hrun f he

lemma indexAllStore_eq (now : Nat) (b : Bool) (S : Store)
    (cf : List ClaudeFile) (xf : List CodexFile) :
    indexAllStore now b S cf xf =
      runStore (genIndexStep CodexFile.path (codexPrepare now) b)
        (runStore (genIndexStep ClaudeFile.path (claudePrepare now) b) S cf)
        xf := by
  unfold indexAllStore claudeRun codexRun
  rw [runFold_fst, runFold_fst]
  rfl

/-- C1: indexing the same candidate files a second time without forcing
leaves the store (its Session and Message rows in particular) exactly as the
first run left it — from any starting store. -/
theorem claim_C1 (now : Nat) (S₀ : Store) (cf : List ClaudeFile)
    (xf : List CodexFile) :
    indexAllStore now false (indexAllStore now false S₀ cf xf) cf xf =
      indexAllStore now false S₀ cf xf := by
  rw [indexAllStore_eq, indexAllStore_eq]
  set F1 := runStore (genIndexStep ClaudeFile.path (claudePrepare now) false)
    S₀ cf with hF1
  set F := runStore (genIndexStep CodexFile.path (codexPrepare now) false)
    F1 xf with hF
  have hSub01 : S₀.sessions ⊆ F1.sessions :=
    runStore_mono _ (genStep_mono _ _ false) cf S₀
  have hSub1F : F1.sessions ⊆ F.sessions :=
    runStore_mono _ (genStep_mono _ _ false) xf F1
  have hclSettled : ∀ f ∈ cf, Settled ClaudeFile.path (claudePrepare now) f F :=
    run_settles _ _ false cf S₀ F (fun x hx => hSub1F (hSub01 hx))
      (by rw [← hF1]; exact hSub1F)
  have hcxSettled : ∀ f ∈ xf, Settled CodexFile.path (codexPrepare now) f F :=
    run_settles _ _ false xf F1 F hSub1F (by rw [← hF]; exact fun x hx => hx)
  rw [runStore_idem _ _ cf F hclSettled]
  exact runStore_idem _ _ xf F hcxSettled

lemma genStep_error {φ : Type} (path : φ → Str) (pf : φ → ParseOut)
    (b : Bool) (f : φ) (S : Store) (hpf : pf f = .readError)
    (hskip : b = true ∨ ∀ r ∈ S.sessions, ¬ r.file_path = path f) :
    genIndexStep path pf b S f = (S, .errored) := by
  unfold genIndexStep
  have hc : ¬ (¬ b = true ∧
      (S.sessions.any fun row => decide (row.file_path = path f)) = true) := by
    rintro ⟨hb, hany⟩
    rcases hskip with h | h
    · exact hb (by rw [h])
    · obtain ⟨r, hr, he⟩ := List.any_eq_true.mp hany
      exact h r hr (of_decide_eq_true he)
  rw [if_neg hc, hpf]

lemma runFold_append {φ : Type} (step : Store → φ → Store × StepOutcome)
    (s : Store × RunCounts) (xs ys : List φ) :
    runFold step s (xs ++ ys) = runFold step (runFold step s xs) ys := by
  unfold runFold
  exact List.foldl_append _ _ _ _

lemma runFold_cons {φ : Type} (step : Store → φ → Store × StepOutcome)
    (s : Store × RunCounts) (f : φ) (files : List φ) :
    runFold step s (f :: files) =
      runFold step ((step s.1 f).1, applyOutcome s.2 (step s.1 f).2) files :=
  rfl

lemma runFold_error_cons {φ : Type} (step : Store → φ → Store × StepOutcome)
    (f : φ) (ys : List φ) (S₁ : Store) (c₁ : RunCounts)
    (herr : step S₁ f = (S₁, .errored)) :
    runFold step (S₁, c₁) (f :: ys) =
      runFold step (S₁, { c₁ with errors := c₁.errors + 1 }) ys := by
  rw [runFold_cons]
  rw [show (S₁, c₁).1 = S₁ from rfl, herr]
  rfl

lemma runFold_errors_shift {φ : Type} (step : Store → φ → Store × StepOutcome)
    (ys : List φ) (S₁ : Store) (c₁ : RunCounts) :
    (runFold step (S₁, { c₁ with errors := c₁.errors + 1 }) ys).1 =
      (runFold step (S₁, c₁) ys).1 ∧
    (runFold step (S₁, { c₁ with errors := c₁.errors + 1 }) ys).2.sessions =
      (runFold step (S₁, c₁) ys).2.sessions ∧
    (runFold step (S₁, { c₁ with errors := c₁.errors + 1 }) ys).2.messages =
      (runFold step (S₁, c₁) ys).2.messages ∧
    (runFold step (S₁, { c₁ with errors := c₁.errors + 1 }) ys).2.errors =
      (runFold step (S₁, c₁) ys).2.errors + 1 := by
  refine ⟨?_, ?_, ?_, ?_⟩
  · rw [runFold_fst, runFold_fst]
  all_goals
    rw [runFold_counts step ys S₁ { c₁ with errors := c₁.errors + 1 },
      runFold_counts step ys S₁ c₁]
    simp [addCounts]
    try omega

lemma run_error_middle {φ : Type} (path : φ → Str) (pf : φ → ParseOut)
    (b : Bool) (S : Store) (xs ys : List φ) (f : φ)
    (hpf : pf f = .readError)
    (hskip : b = true ∨
      ∀ r ∈ (runStore (genIndexStep path pf b) S xs).sessions,
        ¬ r.file_path = path f) :
    (runFold (genIndexStep path pf b) (S, {}) (xs ++ f :: ys)).1 =
      (runFold (genIndexStep path pf b) (S, {}) (xs ++ ys)).1 ∧
    (runFold (genIndexStep path pf b) (S, {}) (xs ++ f :: ys)).2.sessions =
      (runFold (genIndexStep path pf b) (S, {}) (xs ++ ys)).2.sessions ∧
    (runFold (genIndexStep path pf b) (S, {}) (xs ++ f :: ys)).2.messages =
      (runFold (genIndexStep path pf b) (S, {}) (xs ++ ys)).2.messages ∧
    (runFold (genIndexStep path pf b) (S, {}) (xs ++ f :: ys)).2.errors =
      (runFold (genIndexStep path pf b) (S, {}) (xs ++ ys)).2.errors + 1 := by
  have herr := genStep_error path pf b f
    (runStore (genIndexStep path pf b) S xs) hpf hskip
  rcases hA : runFold (genIndexStep path pf b) (S, {}) xs with ⟨S₁, c₁⟩
  have hS1 : S₁ = runStore (genIndexStep path pf b) S xs := by
    have h := runFold_fst (genIndexStep path pf b) xs S {}
    rw [hA] at h
    exact h
  rw [runFold_append, runFold_append, hA]
  rw [runFold_error_cons _ f ys S₁ c₁ (by rw [hS1]; exact herr)]
  exact runFold_errors_shift _ ys S₁ c₁

/-- C2: a file whose read/parse raises changes nothing in the store (its
partial writes are rolled back), adds exactly one to the error counter, and
the run simply continues: the whole run over `xs ++ f :: ys` returns the
same store and session/message counts as the run over `xs ++ ys`, with one
more error.  (When not forcing, the file must not already be indexed —
otherwise the duplicate check skips it before the parse can raise.)  Stated
for both per-format loops. -/
theorem claim_C2 :
    (∀ (now : Nat) (b : Bool) (S : Store) (xs ys : List ClaudeFile)
        (f : ClaudeFile),
      f.content = none →
      (b = true ∨ ∀ r ∈ (claudeRun now b S xs).1.sessions,
        ¬ r.file_path = f.path) →
      (claudeRun now b S (xs ++ f :: ys)).1 = (claudeRun now b S (xs ++ ys)).1 ∧
      (claudeRun now b S (xs ++ f :: ys)).2.sessions =
        (claudeRun now b S (xs ++ ys)).2.sessions ∧
      (claudeRun now b S (xs ++ f :: ys)).2.messages =
        (claudeRun now b S (xs ++ ys)).2.messages ∧
      (claudeRun now b S (xs ++ f :: ys)).2.errors =
        (claudeRun now b S (xs ++ ys)).2.errors + 1) ∧
    (∀ (now : Nat) (b : Bool) (S : Store) (xs ys : List CodexFile)
        (f : CodexFile),
      f.content = none →
      (b = true ∨ ∀ r ∈ (codexRun now b S xs).1.sessions,
        ¬ r.file_path = f.path) →
      (codexRun now b S (xs ++ f :: ys)).1 = (codexRun now b S (xs ++ ys)).1 ∧
      (codexRun now b S (xs ++ f :: ys)).2.sessions =
        (codexRun now b S (xs ++ ys)).2.sessions ∧
      (codexRun now b S (xs ++ f :: ys)).2.messages =
        (codexRun now b S (xs ++ ys)).2.messages ∧
      (codexRun now b S (xs ++ f :: ys)).2.errors =
        (codexRun now b S (xs ++ ys)).2.errors + 1) := by
  constructor
  · intro now b S xs ys f hc hskip
    have hpf : claudePrepare now f = .readError := by
      unfold claudePrepare
      rw [hc]
    have hskip' : b = true ∨
        ∀ r ∈ (runStore (genIndexStep ClaudeFile.path (claudePrepare now) b)
          S xs).sessions, ¬ r.file_path = f.path := by
      rcases hskip with h | h
      · exact Or.inl h
      · refine Or.inr (fun r hr => h r ?_)
        have he : (claudeRun now b S xs).1 =
            runStore (genIndexStep ClaudeFile.path (claudePrepare now) b) S xs :=
          runFold_fst _ xs S {}
        rw [he]
        exact hr
    exact run_error_middle ClaudeFile.path (claudePrepare now) b S xs ys f
      hpf hskip'
  · intro now b S xs ys f hc hskip
    have hpf : codexPrepare now f = .readError := by
      unfold codexPrepare
      rw [hc]
    have hskip' : b = true ∨
        ∀ r ∈ (runStore (genIndexStep CodexFile.path (codexPrepare now) b)
          S xs).sessions, ¬ r.file_path = f.path := by
      rcases hskip with h | h
      · exact Or.inl h
      · refine Or.inr (fun r hr => h r ?_)
        have he : (codexRun now b S xs).1 =
            runStore (genIndexStep CodexFile.path (codexPrepare now) b) S xs :=
          runFold_fst _ xs S {}
        rw [he]
        exact hr
    exact run_error_middle CodexFile.path (codexPrepare now) b S xs ys f
      hpf hskip'

/-- A healthy candidate file, for witnesses. -/
def c2Good : ClaudeFile :=
  { stem := "g".toList, path := "/p/g.jsonl".toList,
    content := some [{ type := some "user".toList }] }

/-- A candidate file whose read raises. -/
def c2Bad : ClaudeFile :=
  { stem := "bad".toList, path := "/p/bad.jsonl".toList, content := none }

/-- Witness for C2: with one good file before it, the bad file leaves the
error count one higher and everything else equal. -/
theorem claim_C2_witness :
    c2Bad.content = none ∧
    (false = true ∨ ∀ r ∈ (claudeRun 0 false {} [c2Good]).1.sessions,
      ¬ r.file_path = c2Bad.path) ∧
    (claudeRun 0 false {} ([c2Good] ++ c2Bad :: [])).2.errors =
      (claudeRun 0 false {} ([c2Good] ++ [])).2.errors + 1 :=
  ⟨rfl, by decide,
   (claim_C2.1 0 false {} [c2Good] [] c2Bad rfl (by decide)).2.2.2⟩

/-!  ### Forced re-indexing -/

lemma parse_claude_file_path {stem path : Str} {now : Nat}
    {records : List ClaudeRecord} {p : ParsedSession}
    (h : parse_claude_session stem path now records = some p) :
    p.session.file_path = path := by
  simp only [parse_claude_session] at h
  split at h
  · cases h
  · injection h with h2
    rw [← h2]

lemma parse_codex_file_path {stem path : Str} {now : Nat}
    {records : List CodexRecord} {p : ParsedSession}
    (h : parse_codex_session stem path now records = some p) :
    p.session.file_path = path := by
  simp only [parse_codex_session] at h
  injection h with h2
  rw [← h2]

lemma claudePrepare_parsed_path {now : Nat} {f : ClaudeFile}
    {pc : PreparedCommit} (h : claudePrepare now f = .parsed pc) :
    pc.row.file_path = f.path := by
  unfold claudePrepare at h
  split at h
  · cases h
  · split at h
    · cases h
    · next p hp =>
      injection h with h2
      rw [← h2]
      exact parse_claude_file_path hp

lemma codexPrepare_parsed_path {now : Nat} {f : CodexFile}
    {pc : PreparedCommit} (h : codexPrepare now f = .parsed pc) :
    pc.row.file_path = f.path := by
  unfold codexPrepare at h
  split at h
  · cases h
  · split at h
    · cases h
    · next p hp =>
      injection h with h2
      rw [← h2]
      exact parse_codex_file_path hp

lemma genStep_new_rows {φ : Type} (path : φ → Str) (pf : φ → ParseOut)
    (b : Bool) (T : Store) (f : φ)
    (hcoh : ∀ pc, pf f = .parsed pc → pc.row.file_path = path f) :
    ∀ r ∈ (genIndexStep path pf b T f).1.sessions,
      r ∈ T.sessions ∨ r.file_path = path f := by
  unfold genIndexStep
  split
  · exact fun r hr => Or.inl hr
  · split
    · exact fun r hr => Or.inl hr
    · exact fun r hr => Or.inl hr
    · next pc hpc =>
      split
      · exact fun r hr => Or.inl hr
      · intro r hr
        rcases List.mem_append.mp hr with h | h
        · exact Or.inl h
        · right
          rw [List.mem_singleton.mp h]
          exact hcoh pc hpc

lemma runStore_new_rows {φ : Type} (path : φ → Str) (pf : φ → ParseOut)
    (b : Bool) (files : List φ)
    (hcoh : ∀ f pc, pf f = .parsed pc → pc.row.file_path = path f) :
    ∀ S₀, ∀ r ∈ (runStore (genIndexStep path pf b) S₀ files).sessions,
      r ∈ S₀.sessions ∨ ∃ f ∈ files, r.file_path = path f := by
  induction files with
  | nil => intro S₀ r hr; exact Or.inl hr
  | cons g rest ih =>
    intro S₀ r hr
    rcases ih _ r hr with h | ⟨f, hf, he⟩
    · rcases genStep_new_rows path pf b S₀ g (hcoh g) r h with h2 | h2
      · exact Or.inl h2
      · exact Or.inr ⟨g, by simp, h2⟩
    · exact Or.inr ⟨f, by simp [hf], he⟩

lemma genStep_settles_strong {φ : Type} (path : φ → Str) (pf : φ → ParseOut)
    (T S : Store) (f : φ)
    (hfresh : ∀ r ∈ T.sessions, ¬ r.file_path = path f)
    (hT : T.sessions ⊆ S.sessions)
    (hres : (genIndexStep path pf false T f).1.sessions ⊆ S.sessions) :
    SettledStrong path pf f S := by
  revert hres
  unfold genIndexStep
  split
  · next hc =>
    obtain ⟨r, hr, he⟩ := List.any_eq_true.mp hc.2
    exact absurd (of_decide_eq_true he) (hfresh r hr)
  · split
    · intro _; exact Or.inl (by assumption)
    · intro _; exact Or.inr (Or.inl (by assumption))
    · next pc hpc =>
      split
      · next hc =>
        intro _
        obtain ⟨r, hr, he⟩ := List.any_eq_true.mp hc
        exact Or.inr (Or.inr ⟨pc, hpc, r, hT hr, of_decide_eq_true he⟩)
      · intro hres
        refine Or.inr (Or.inr ⟨pc, hpc, pc.row, ?_, rfl⟩)
        exact hres (by simp)

lemma run_settles_strong {φ : Type} (path : φ → Str) (pf : φ → ParseOut)
    (files : List φ)
    (hcoh : ∀ f pc, pf f = .parsed pc → pc.row.file_path = path f) :
    ∀ (S₀ S : Store),
      files.Pairwise (fun a b => path a ≠ path b) →
      (∀ f ∈ files, ∀ r ∈ S₀.sessions, ¬ r.file_path = path f) →
      S₀.sessions ⊆ S.sessions →
      (runStore (genIndexStep path pf false) S₀ files).sessions ⊆ S.sessions →
      ∀ f ∈ files, SettledStrong path pf f S := by
  induction files with
  | nil => intro S₀ S _ _ _ _ f hf; cases hf
  | cons g rest ih =>
    intro S₀ S hpw hfresh h0 hrun f hf
    obtain ⟨hg, hpw'⟩ := List.pairwise_cons.mp hpw
    have hstep_sub : (genIndexStep path pf false S₀ g).1.sessions ⊆ S.sessions :=
      fun x hx => hrun (runStore_mono _ (genStep_mono path pf false) rest _ hx)
    rcases List.mem_cons.mp hf with he | he
    · rw [he]
      exact genStep_settles_strong path pf S₀ S g
        (hfresh g (by simp)) h0 hstep_sub
    · refine ih _ S hpw' ?_ hstep_sub hrun f he
      intro f' hf' r hr
      rcases genStep_new_rows path pf false S₀ g (hcoh g) r hr with h | h
      · exact hfresh f' (by simp [hf']) r h
      · rw [h]
        exact hg f' hf'

/-- C7 (amended): from an empty store, indexing once and then again with
forcing enabled leaves the store exactly as the single run left it: the
duplicate primary-key insert of every already-committed session raises, is
rolled back and becomes an error instead of a re-index, so row counts match
a single full parse.  (Candidate paths are pairwise distinct, as a scanned
directory tree yields each file once.) -/
theorem claim_C7 (now : Nat) (cf : List ClaudeFile) (xf : List CodexFile)
    (hdist : (cf.map ClaudeFile.path ++ xf.map CodexFile.path).Pairwise (· ≠ ·)) :
    indexAllStore now true (indexAllStore now false {} cf xf) cf xf =
      indexAllStore now false {} cf xf := by
  rw [indexAllStore_eq, indexAllStore_eq]
  set F1 := runStore (genIndexStep ClaudeFile.path (claudePrepare now) false)
    {} cf with hF1
  set F := runStore (genIndexStep CodexFile.path (codexPrepare now) false)
    F1 xf with hF
  obtain ⟨hpw1, hpw2, hcross⟩ := List.pairwise_append.mp hdist
  have hpwCf : cf.Pairwise (fun a b => a.path ≠ b.path) :=
    List.pairwise_map.mp hpw1
  have hpwXf : xf.Pairwise (fun a b => a.path ≠ b.path) :=
    List.pairwise_map.mp hpw2
  have hSub1F : F1.sessions ⊆ F.sessions :=
    runStore_mono _ (genStep_mono _ _ false) xf F1
  have hclCoh : ∀ (f : ClaudeFile) pc,
      claudePrepare now f = .parsed pc → pc.row.file_path = f.path :=
    fun f pc h => claudePrepare_parsed_path h
  have hcxCoh : ∀ (f : CodexFile) pc,
      codexPrepare now f = .parsed pc → pc.row.file_path = f.path :=
    fun f pc h => codexPrepare_parsed_path h
  have hclStrong : ∀ f ∈ cf,
      SettledStrong ClaudeFile.path (claudePrepare now) f F := by
    refine run_settles_strong _ _ cf hclCoh {} F hpwCf ?_ ?_ ?_
    · intro f _ r hr
      cases hr
    · intro x hx
      cases hx
    · rw [← hF1]
      exact hSub1F
  have hcxStrong : ∀ f ∈ xf,
      SettledStrong CodexFile.path (codexPrepare now) f F := by
    refine run_settles_strong _ _ xf hcxCoh F1 F hpwXf ?_ hSub1F ?_
    · intro f hf r hr
      rcases runStore_new_rows ClaudeFile.path (claudePrepare now) false cf
          hclCoh {} r hr with h | ⟨g, hg, he⟩
      · cases h
      · rw [he]
        exact hcross _ (List.mem_map_of_mem ClaudeFile.path hg) _
          (List.mem_map_of_mem CodexFile.path hf)
    · rw [← hF]
      exact fun x hx => hx
  rw [runStore_idem_force _ _ cf F hclStrong]
  exact runStore_idem_force _ _ xf F hcxStrong

/-- The file used to exhibit C7's spurious forced-re-index errors. -/
def c7File : ClaudeFile :=
  { stem := "s1".toList, path := "/p/s1.jsonl".toList,
    content := some [{ type := some "user".toList }] }

/-- C7 counterexample: after a full first index of one file, a second run
with forcing enabled reports one error (the duplicate primary-key insert),
not zero — the claim's "no spurious errors" fails.  The session count the
forced run reports is 0: nothing is actually re-indexed. -/
theorem claim_C7_counterexample :
    (claudeRun 0 true (claudeRun 0 false {} [c7File]).1 [c7File]).2.errors = 1 ∧
    (claudeRun 0 true (claudeRun 0 false {} [c7File]).1 [c7File]).2.sessions = 0 ∧
    (claudeRun 0 false {} [c7File]).2.errors = 0 := by
  refine ⟨?_, ?_, ?_⟩ <;> decide

/-- Witness for C7 (amended) at a one-file tree. -/
theorem claim_C7_witness :
    (([c7File].map ClaudeFile.path ++
        ([] : List CodexFile).map CodexFile.path).Pairwise (· ≠ ·)) ∧
    indexAllStore 0 true (indexAllStore 0 false {} [c7File] []) [c7File] [] =
      indexAllStore 0 false {} [c7File] [] :=
  ⟨by decide, claim_C7 0 [c7File] [] (by decide)⟩

/-!  ### Parser component lemmas and the parser claims -/

lemma claudeState_empty_core : ({} : ClaudeState).core = ({} : ClaudeCore) :=
  rfl

lemma codexState_empty_core : ({} : CodexState).core = ({} : CodexCore) :=
  rfl

lemma parse_claude_by_core (stem path : Str) (now : Nat)
    (records : List ClaudeRecord) :
    (parse_claude_session stem path now records).map ParsedSession.messages =
      (if (records.foldl (claudeDispatch now) {}).messages.length = 0 then none
       else some (records.foldl (claudeDispatch now) {}).messages) ∧
    (parse_claude_session stem path now records).map
        (fun p => p.session.display) =
      (if (records.foldl (claudeDispatch now) {}).messages.length = 0 then none
       else some (if optStrFalsy (records.foldl (claudeDispatch now) {}).firstUser
         then NO_USER_MESSAGE
         else (records.foldl (claudeDispatch now) {}).firstUser.getD [])) ∧
    (parse_claude_session stem path now records).map
        (fun p => p.session.model) =
      (if (records.foldl (claudeDispatch now) {}).messages.length = 0 then none
       else some (records.foldl (claudeDispatch now) {}).model) := by
  simp only [parse_claude_session, claude_foldl_core, claudeState_empty_core]
  refine ⟨?_, ?_, ?_⟩ <;> split <;> rfl

lemma parse_codex_by_core (stem path : Str) (now : Nat)
    (records : List CodexRecord) :
    (parse_codex_session stem path now records).map ParsedSession.messages =
      some (records.foldl (codexDispatch now) {}).messages ∧
    (parse_codex_session stem path now records).map
        (fun p => p.session.display) =
      some (if optStrFalsy (records.foldl (codexDispatch now) {}).firstUser
        then NO_USER_MESSAGE
        else (records.foldl (codexDispatch now) {}).firstUser.getD []) := by
  simp only [parse_codex_session, codex_foldl_core, codexState_empty_core]
  exact ⟨rfl, rfl⟩

/-- C3: for every parsed session of either format (subagent transcripts are
parsed by the same Format A parser), the produced messages carry sequence
numbers exactly `0..N-1` in order. -/
theorem claim_C3 :
    (∀ (stem path : Str) (now : Nat) (records : List ClaudeRecord)
        (p : ParsedSession),
      parse_claude_session stem path now records = some p →
        p.messages.map (·.sequence) = List.range p.messages.length) ∧
    (∀ (stem path : Str) (now : Nat) (records : List CodexRecord)
        (p : ParsedSession),
      parse_codex_session stem path now records = some p →
        p.messages.map (·.sequence) = List.range p.messages.length) := by
  constructor
  · intro stem path now records p h
    have hc := (parse_claude_by_core stem path now records).1
    rw [h] at hc
    have hinv := claude_fold_inv (claudeDispatch now)
      (claudeDispatch_shape now) records {} rfl rfl
    split at hc
    · cases hc
    · have hm : p.messages = (records.foldl (claudeDispatch now) {}).messages :=
        Option.some.inj hc
      rw [hm, ← hinv.1]
      exact hinv.2
  · intro stem path now records p h
    have hc := (parse_codex_by_core stem path now records).1
    rw [h] at hc
    have hinv := codex_fold_inv (codexDispatch now)
      (codexDispatch_shape now) records {} rfl rfl
    have hm : p.messages = (records.foldl (codexDispatch now) {}).messages :=
      Option.some.inj hc
    rw [hm, ← hinv.1]
    exact hinv.2

/-- A two-message Format A file and a one-message Format B file for the C3
witness. -/
def c3ClaudeFile : List ClaudeRecord :=
  [{ type := some "user".toList }, { type := some "assistant".toList }]

def c3CodexFile : List CodexRecord :=
  [{ type := some "response_item".toList,
     payload := { ptype := some "function_call".toList } }]

def c3ClaudeParsed : ParsedSession :=
  (parse_claude_session "a".toList "/a".toList 0 c3ClaudeFile).getD
    { session := { id := [], source := [], file_path := [], display := [],
                   message_count := 0 }, messages := [] }

def c3CodexParsed : ParsedSession :=
  (parse_codex_session "b".toList "/b".toList 0 c3CodexFile).getD
    { session := { id := [], source := [], file_path := [], display := [],
                   message_count := 0 }, messages := [] }

/-- Witness for C3 at concrete files of both formats. -/
theorem claim_C3_witness :
    parse_claude_session "a".toList "/a".toList 0 c3ClaudeFile =
      some c3ClaudeParsed ∧
    c3ClaudeParsed.messages.map (·.sequence) =
      List.range c3ClaudeParsed.messages.length ∧
    parse_codex_session "b".toList "/b".toList 0 c3CodexFile =
      some c3CodexParsed ∧
    c3CodexParsed.messages.map (·.sequence) =
      List.range c3CodexParsed.messages.length :=
  ⟨by decide,
   claim_C3.1 "a".toList "/a".toList 0 c3ClaudeFile c3ClaudeParsed (by decide),
   by decide,
   claim_C3.2 "b".toList "/b".toList 0 c3CodexFile c3CodexParsed (by decide)⟩

/-- A Format A file holding only a snapshot-type record. -/
def c4ClaudeRecords : List ClaudeRecord :=
  [{ type := some "file-history-snapshot".toList, timestamp := some 1 }]

/-- A Format B file holding only a `session_meta` record — zero messages. -/
def c4CodexRecords : List CodexRecord :=
  [{ type := some "session_meta".toList, timestamp := some 1 }]

def c4CodexFile : CodexFile :=
  { stem := "x".toList, path := "/s/x.jsonl".toList,
    content := some c4CodexRecords }

/-- C4: the Format A parser returns `None` for a zero-message file, but the
Format B parser returns a `(session, messages)` pair even when the file
produced zero messages, and the coordinator then creates a Session row with
`message_count = 0` (and no error) — the coordinator's `is None` check for
Format B is dead code. -/
theorem claim_C4 :
    parse_claude_session "y".toList "/p/y.jsonl".toList 0 c4ClaudeRecords =
      none ∧
    (parse_codex_session "x".toList "/s/x.jsonl".toList 0 c4CodexRecords).map
      (fun p => p.messages.length) = some 0 ∧
    (codexRun 0 false {} [c4CodexFile]).1.sessions.map
      (fun r => r.message_count) = [0] ∧
    (codexRun 0 false {} [c4CodexFile]).2.errors = 0 := by
  refine ⟨?_, ?_, ?_, ?_⟩ <;> decide

/-- A non-conversational record carrying a timestamp, and a user record. -/
def c5Prog : ClaudeRecord :=
  { type := some "progress".toList, timestamp := some 5 }

def c5User : ClaudeRecord :=
  { type := some "user".toList, timestamp := some 7 }

/-- C5 counterexample: a `progress` record is not ignored entirely — with it
present the session's `created_at` is its timestamp (5); with it removed,
`created_at` is the user record's timestamp (7). -/
theorem claim_C5_counterexample :
    c5Prog.type ≠ some "user".toList ∧
    c5Prog.type ≠ some "assistant".toList ∧
    (parse_claude_session "a".toList "/a".toList 0 [c5Prog, c5User]).map
      (fun p => p.session.created_at) = some (some 5) ∧
    (parse_claude_session "a".toList "/a".toList 0 [c5User]).map
      (fun p => p.session.created_at) = some (some 7) := by
  refine ⟨?_, ?_, ?_, ?_⟩ <;> decide

/-- C5 (amended): a Format A record whose type is neither `user` nor
`assistant` contributes nothing to the message sequence, the display text or
the session model — removing it changes none of those — but it does still
feed the `created_at`/`updated_at`/`cwd` metadata. -/
theorem claim_C5 (stem path : Str) (now : Nat) (l1 l2 : List ClaudeRecord)
    (r : ClaudeRecord) (h1 : ¬ r.type = some "user".toList)
    (h2 : ¬ r.type = some "assistant".toList) :
    (parse_claude_session stem path now (l1 ++ r :: l2)).map
        ParsedSession.messages =
      (parse_claude_session stem path now (l1 ++ l2)).map
        ParsedSession.messages ∧
    (parse_claude_session stem path now (l1 ++ r :: l2)).map
        (fun p => p.session.display) =
      (parse_claude_session stem path now (l1 ++ l2)).map
        (fun p => p.session.display) ∧
    (parse_claude_session stem path now (l1 ++ r :: l2)).map
        (fun p => p.session.model) =
      (parse_claude_session stem path now (l1 ++ l2)).map
        (fun p => p.session.model) := by
  have hcore : ∀ c0 : ClaudeCore,
      (l1 ++ r :: l2).foldl (claudeDispatch now) c0 =
        (l1 ++ l2).foldl (claudeDispatch now) c0 := by
    intro c0
    rw [List.foldl_append, List.foldl_append, List.foldl_cons]
    have hstep : claudeDispatch now (l1.foldl (claudeDispatch now) c0) r =
        l1.foldl (claudeDispatch now) c0 := by
      unfold claudeDispatch
      rw [if_neg h1, if_neg h2]
    rw [hstep]
  obtain ⟨hm1, hd1, hmo1⟩ := parse_claude_by_core stem path now (l1 ++ r :: l2)
  obtain ⟨hm2, hd2, hmo2⟩ := parse_claude_by_core stem path now (l1 ++ l2)
  refine ⟨?_, ?_, ?_⟩
  · rw [hm1, hm2, hcore]
  · rw [hd1, hd2, hcore]
  · rw [hmo1, hmo2, hcore]

/-- Witness for C5 (amended): inserting the progress record between two user
records changes neither messages nor display nor model. -/
theorem claim_C5_witness :
    ¬ c5Prog.type = some "user".toList ∧
    ¬ c5Prog.type = some "assistant".toList ∧
    (parse_claude_session "a".toList "/a".toList 0
        ([c5User] ++ c5Prog :: [c5User])).map (fun p => p.session.display) =
      (parse_claude_session "a".toList "/a".toList 0
        ([c5User] ++ [c5User])).map (fun p => p.session.display) :=
  ⟨by decide, by decide,
   (claim_C5 "a".toList "/a".toList 0 [c5User] [c5User] c5Prog
     (by decide) (by decide)).2.1⟩

/-- The cleaned, truncated display value a Format A record would contribute
as a qualifying first user message (the claim's qualification rule for
Format A), `none` when the record does not qualify. -/
def claudeQualVal (e : ClaudeRecord) : Option Str :=
  if e.type = some "user".toList && claudeQualifies e.message then
    some ((strip_xml_tags (extract_text_from_content e.message)).take 200)
  else none

/-- The display-text rule, transcribed from the claim for Format A: the
first qualifying user message, tag-stripped and truncated to 200 characters,
and the sentinel when no user message qualifies. -/
def specDisplayA (records : List ClaudeRecord) : Str :=
  match (records.filterMap claudeQualVal).head? with
  | some d => d
  | none => NO_USER_MESSAGE

/-- The qualifying display value of a Format B record: a `response_item` of
subtype `message` with role `user` whose extracted text is non-blank,
non-empty after tag stripping, and not a system message. -/
def codexQualVal (e : CodexRecord) : Option Str :=
  if e.type = some "response_item".toList &&
      e.payload.ptype = some "message".toList &&
      e.payload.role = some "user".toList &&
      !(pyStrip (codexItemText e.payload.content)).isEmpty &&
      !(strip_xml_tags (codexItemText e.payload.content)).isEmpty &&
      !(is_system_message (codexItemText e.payload.content)) then
    some ((strip_xml_tags (codexItemText e.payload.content)).take 200)
  else none

/-- The display-text rule, transcribed from the claim for Format B. -/
def specDisplayB (records : List CodexRecord) : Str :=
  match (records.filterMap codexQualVal).head? with
  | some d => d
  | none => NO_USER_MESSAGE

lemma claudeDispatch_firstUser_set (now : Nat) (c : ClaudeCore)
    (e : ClaudeRecord) (h : optStrFalsy c.firstUser = false) :
    (claudeDispatch now c e).firstUser = c.firstUser := by
  unfold claudeDispatch claudeFirstUserVal
  split
  · simp [h]
  · split
    · rfl
    · rfl

lemma claudeDispatch_firstUser (now : Nat) (c : ClaudeCore) (e : ClaudeRecord)
    (h : optStrFalsy c.firstUser = true) :
    (claudeDispatch now c e).firstUser =
      (match claudeQualVal e with
       | some d => some d
       | none => c.firstUser) := by
  by_cases ht : e.type = some "user".toList
  · by_cases hqual : claudeQualifies e.message = true
    · simp [claudeDispatch, claudeFirstUserVal, claudeQualVal, ht, hqual, h]
    · have hq : claudeQualifies e.message = false :=
        Bool.eq_false_iff.mpr hqual
      simp [claudeDispatch, claudeFirstUserVal, claudeQualVal, ht, hq, h]
  · by_cases ha : e.type = some "assistant".toList
    · simp [claudeDispatch, claudeQualVal, ht, ha]
    · unfold claudeDispatch claudeQualVal
      rw [if_neg ht, if_neg ha,
        if_neg (fun hc => ht (of_decide_eq_true ((Bool.and_eq_true _ _ ▸ hc).1)))]

lemma claude_fold_firstUser_set (now : Nat) (records : List ClaudeRecord) :
    ∀ c : ClaudeCore, optStrFalsy c.firstUser = false →
      (records.foldl (claudeDispatch now) c).firstUser = c.firstUser := by
  induction records with
  | nil => intro c _; rfl
  | cons e rest ih =>
    intro c h
    rw [List.foldl_cons]
    have hstep := claudeDispatch_firstUser_set now c e h
    have h' : optStrFalsy (claudeDispatch now c e).firstUser = false := by
      rw [hstep]; exact h
    rw [ih _ h', hstep]

lemma claudeQualVal_isEmpty {e : ClaudeRecord} {d : Str}
    (h : claudeQualVal e = some d) : d.isEmpty = false := by
  unfold claudeQualVal at h
  split at h
  · next hcond =>
    injection h with hd
    rw [Bool.and_eq_true] at hcond
    have hq := hcond.2
    unfold claudeQualifies at hq
    rw [Bool.and_eq_true, Bool.and_eq_true] at hq
    have hne : (strip_xml_tags (extract_text_from_content e.message)).isEmpty
        = false := by
      have h2 := hq.1.1
      simpa using h2
    rw [← hd]
    cases hcl : strip_xml_tags (extract_text_from_content e.message) with
    | nil => rw [hcl] at hne; simp at hne
    | cons a t => rfl
  · cases h

lemma claude_fold_firstUser (now : Nat) (records : List ClaudeRecord) :
    ∀ c : ClaudeCore, optStrFalsy c.firstUser = true →
      (records.foldl (claudeDispatch now) c).firstUser =
        (match (records.filterMap claudeQualVal).head? with
         | some d => some d
         | none => c.firstUser) := by
  induction records with
  | nil => intro c _; rfl
  | cons e rest ih =>
    intro c h
    rw [List.foldl_cons]
    cases hq : claudeQualVal e with
    | some d =>
      have hstep : (claudeDispatch now c e).firstUser = some d := by
        rw [claudeDispatch_firstUser now c e h, hq]
      have hne : optStrFalsy (claudeDispatch now c e).firstUser = false := by
        rw [hstep]
        exact claudeQualVal_isEmpty hq
      rw [claude_fold_firstUser_set now rest _ hne, hstep]
      simp only [List.filterMap_cons, hq]
      rfl
    | none =>
      have hstep : (claudeDispatch now c e).firstUser = c.firstUser := by
        rw [claudeDispatch_firstUser now c e h, hq]
      have h' : optStrFalsy (claudeDispatch now c e).firstUser = true := by
        rw [hstep]; exact h
      rw [ih _ h', hstep]
      simp only [List.filterMap_cons, hq]

lemma codexQualVal_none_of_type {e : CodexRecord}
    (ht : ¬ e.type = some "response_item".toList) : codexQualVal e = none := by
  unfold codexQualVal
  rw [if_neg]
  intro hc
  simp only [Bool.and_eq_true, decide_eq_true_eq] at hc
  exact ht hc.1.1.1.1.1

lemma codexQualVal_none_of_ptype {e : CodexRecord}
    (hp : ¬ e.payload.ptype = some "message".toList) : codexQualVal e = none := by
  unfold codexQualVal
  rw [if_neg]
  intro hc
  simp only [Bool.and_eq_true, decide_eq_true_eq] at hc
  exact hp hc.1.1.1.1.2

lemma codexQualVal_none_of_role {e : CodexRecord}
    (hr : ¬ e.payload.role = some "user".toList) : codexQualVal e = none := by
  unfold codexQualVal
  rw [if_neg]
  intro hc
  simp only [Bool.and_eq_true, decide_eq_true_eq] at hc
  exact hr hc.1.1.1.2

lemma codexDispatch_firstUser_set (now : Nat) (c : CodexCore)
    (e : CodexRecord) (h : optStrFalsy c.firstUser = false) :
    (codexDispatch now c e).firstUser = c.firstUser := by
  unfold codexDispatch codexFirstUserVal
  split
  · split
    · simp only [h, Bool.and_false, Bool.false_and]
      rfl
    · split
      · rfl
      · split
        · rfl
        · rfl
  · rfl

lemma codexDispatch_firstUser (now : Nat) (c : CodexCore) (e : CodexRecord)
    (h : optStrFalsy c.firstUser = true) :
    (codexDispatch now c e).firstUser =
      (match codexQualVal e with
       | some d => some d
       | none => c.firstUser) := by
  by_cases ht : e.type = some "response_item".toList
  · by_cases hmr : e.payload.ptype = some "message".toList ∧
        (e.payload.role = some "user".toList ∨
          e.payload.role = some "assistant".toList)
    · by_cases hr : e.payload.role = some "user".toList
      · unfold codexDispatch codexFirstUserVal codexQualVal
        rw [if_pos ht, if_pos hmr]
        simp only [decide_eq_true hr, decide_eq_true ht, decide_eq_true hmr.1,
          h, Bool.true_and]
        split
        · rfl
        · rfl
      · have hra : e.payload.role = some "assistant".toList :=
          hmr.2.resolve_left hr
        unfold codexDispatch codexFirstUserVal
        rw [if_pos ht, if_pos hmr, codexQualVal_none_of_role hr]
        simp only [decide_eq_false hr, Bool.false_and]
        rfl
    · have hqn : codexQualVal e = none := by
        by_cases hp : e.payload.ptype = some "message".toList
        · exact codexQualVal_none_of_role (fun hr => hmr ⟨hp, Or.inl hr⟩)
        · exact codexQualVal_none_of_ptype hp
      rw [hqn]
      unfold codexDispatch
      rw [if_pos ht, if_neg hmr]
      split
      · rfl
      · split
        · rfl
        · rfl
  · rw [codexQualVal_none_of_type ht]
    unfold codexDispatch
    rw [if_neg ht]

lemma codex_fold_firstUser_set (now : Nat) (records : List CodexRecord) :
    ∀ c : CodexCore, optStrFalsy c.firstUser = false →
      (records.foldl (codexDispatch now) c).firstUser = c.firstUser := by
  induction records with
  | nil => intro c _; rfl
  | cons e rest ih =>
    intro c h
    rw [List.foldl_cons]
    have hstep := codexDispatch_firstUser_set now c e h
    have h' : optStrFalsy (codexDispatch now c e).firstUser = false := by
      rw [hstep]; exact h
    rw [ih _ h', hstep]

lemma codexQualVal_isEmpty {e : CodexRecord} {d : Str}
    (h : codexQualVal e = some d) : d.isEmpty = false := by
  unfold codexQualVal at h
  split at h
  · next hcond =>
    injection h with hd
    simp only [Bool.and_eq_true, decide_eq_true_eq] at hcond
    have hne : (strip_xml_tags (codexItemText e.payload.content)).isEmpty
        = false := by
      have h2 := hcond.1.2
      simpa using h2
    rw [← hd]
    cases hcl : strip_xml_tags (codexItemText e.payload.content) with
    | nil => rw [hcl] at hne; simp at hne
    | cons a t => rfl
  · cases h

lemma codex_fold_firstUser (now : Nat) (records : List CodexRecord) :
    ∀ c : CodexCore, optStrFalsy c.firstUser = true →
      (records.foldl (codexDispatch now) c).firstUser =
        (match (records.filterMap codexQualVal).head? with
         | some d => some d
         | none => c.firstUser) := by
  induction records with
  | nil => intro c _; rfl
  | cons e rest ih =>
    intro c h
    rw [List.foldl_cons]
    cases hq : codexQualVal e with
    | some d =>
      have hstep : (codexDispatch now c e).firstUser = some d := by
        rw [codexDispatch_firstUser now c e h, hq]
      have hne : optStrFalsy (codexDispatch now c e).firstUser = false := by
        rw [hstep]
        exact codexQualVal_isEmpty hq
      rw [codex_fold_firstUser_set now rest _ hne, hstep]
      simp only [List.filterMap_cons, hq]
      rfl
    | none =>
      have hstep : (codexDispatch now c e).firstUser = c.firstUser := by
        rw [codexDispatch_firstUser now c e h, hq]
      have h' : optStrFalsy (codexDispatch now c e).firstUser = true := by
        rw [hstep]; exact h
      rw [ih _ h', hstep]
      simp only [List.filterMap_cons, hq]

/-- C6 (amended): each parser's display text is the first qualifying user
message, tag-stripped and truncated to 200 characters, with the sentinel
when none qualifies — where only the Format A parser additionally excludes
messages beginning with the plan-injection preamble (the Format B parser
has no such check). -/
theorem claim_C6 :
    (∀ (stem path : Str) (now : Nat) (records : List ClaudeRecord)
        (p : ParsedSession),
      parse_claude_session stem path now records = some p →
        p.session.display = specDisplayA records) ∧
    (∀ (stem path : Str) (now : Nat) (records : List CodexRecord)
        (p : ParsedSession),
      parse_codex_session stem path now records = some p →
        p.session.display = specDisplayB records) := by
  constructor
  · intro stem path now records p h
    have hd := (parse_claude_by_core stem path now records).2.1
    rw [h] at hd
    split at hd
    · cases hd
    · have hdisp := Option.some.inj hd
      simp only [] at hdisp
      have hfu := claude_fold_firstUser now records {} rfl
      unfold specDisplayA
      cases hl : (records.filterMap claudeQualVal).head? with
      | some d =>
        rw [hl] at hfu
        obtain ⟨e, he, hqe⟩ : ∃ e ∈ records, claudeQualVal e = some d := by
          rcases hll : records.filterMap claudeQualVal with _ | ⟨d0, tl⟩
          · rw [hll] at hl; cases hl
          · rw [hll] at hl
            injection hl with hd0
            have hmem : d0 ∈ records.filterMap claudeQualVal := by
              rw [hll]; exact List.mem_cons_self _ _
            obtain ⟨e, he, hqe⟩ := List.mem_filterMap.mp hmem
            exact ⟨e, he, by rw [hqe, hd0]⟩
        have hdne : d.isEmpty = false := claudeQualVal_isEmpty hqe
        rw [hdisp, hfu]
        rw [show optStrFalsy (match some d with
          | some d => some d
          | none => (({} : ClaudeCore)).firstUser) = d.isEmpty from rfl, hdne]
        rfl
      | none =>
        rw [hl] at hfu
        rw [hdisp, hfu]
        rfl
  · intro stem path now records p h
    have hd := (parse_codex_by_core stem path now records).2
    rw [h] at hd
    have hdisp := Option.some.inj hd
    simp only [] at hdisp
    have hfu := codex_fold_firstUser now records {} rfl
    unfold specDisplayB
    cases hl : (records.filterMap codexQualVal).head? with
    | some d =>
      rw [hl] at hfu
      obtain ⟨e, he, hqe⟩ : ∃ e ∈ records, codexQualVal e = some d := by
        rcases hll : records.filterMap codexQualVal with _ | ⟨d0, tl⟩
        · rw [hll] at hl; cases hl
        · rw [hll] at hl
          injection hl with hd0
          have hmem : d0 ∈ records.filterMap codexQualVal := by
            rw [hll]; exact List.mem_cons_self _ _
          obtain ⟨e, he, hqe⟩ := List.mem_filterMap.mp hmem
          exact ⟨e, he, by rw [hqe, hd0]⟩
      have hdne : d.isEmpty = false := codexQualVal_isEmpty hqe
      rw [hdisp, hfu]
      rw [show optStrFalsy (match some d with
        | some d => some d
        | none => (({} : CodexCore)).firstUser) = d.isEmpty from rfl, hdne]
      rfl
    | none =>
      rw [hl] at hfu
      rw [hdisp, hfu]
      rfl

/-- A Format B file whose first user message begins with the plan-injection
preamble, followed by a qualifying user message. -/
def c6Records : List CodexRecord :=
  [ { type := some "response_item".toList,
      payload := { ptype := some "message".toList,
                   role := some "user".toList,
                   content := [ContentItem.item (some "input_text".toList)
                     (some "Implement the following plan: do X".toList)] } },
    { type := some "response_item".toList,
      payload := { ptype := some "message".toList,
                   role := some "user".toList,
                   content := [ContentItem.item (some "input_text".toList)
                     (some "Fix it".toList)] } } ]

/-- C6 counterexample: the Format B parser takes the plan-injection message
as display text — the plan-preamble exclusion the claim says is common to
both parsers exists only in the Format A parser. -/
theorem claim_C6_counterexample :
    (parse_codex_session "s".toList "/f".toList 0 c6Records).map
      (fun p => p.session.display) =
      some "Implement the following plan: do X".toList ∧
    PLAN_PREFIX.isPrefixOf "Implement the following plan: do X".toList = true ∧
    "Implement the following plan: do X".toList ≠ "Fix it".toList := by
  refine ⟨?_, ?_, ?_⟩ <;> decide

def c6ClaudeRecords : List ClaudeRecord :=
  [{ type := some "user".toList,
     message := { content := some (ContentVal.str
       "<system-reminder>sys</system-reminder>".toList) } },
   { type := some "user".toList,
     message := { content := some (ContentVal.str "Fix the bug".toList) } }]

def c6ClaudeParsed : ParsedSession :=
  (parse_claude_session "w".toList "/w".toList 0 c6ClaudeRecords).getD
    { session := { id := [], source := [], file_path := [], display := [],
                   message_count := 0 }, messages := [] }

def c6CodexParsed : ParsedSession :=
  (parse_codex_session "s".toList "/f".toList 0 c6Records).getD
    { session := { id := [], source := [], file_path := [], display := [],
                   message_count := 0 }, messages := [] }

set_option maxRecDepth 4000 in
/-- Witness for C6 (amended): a system-reminder first message is skipped and
the next real message becomes the display, matching the spec-side rule. -/
theorem claim_C6_witness :
    parse_claude_session "w".toList "/w".toList 0 c6ClaudeRecords =
      some c6ClaudeParsed ∧
    c6ClaudeParsed.session.display = specDisplayA c6ClaudeRecords ∧
    specDisplayA c6ClaudeRecords = "Fix the bug".toList ∧
    parse_codex_session "s".toList "/f".toList 0 c6Records =
      some c6CodexParsed ∧
    c6CodexParsed.session.display = specDisplayB c6Records :=
  ⟨by decide,
   claim_C6.1 "w".toList "/w".toList 0 c6ClaudeRecords c6ClaudeParsed
     (by decide),
   by decide, by decide,
   claim_C6.2 "s".toList "/f".toList 0 c6Records c6CodexParsed (by decide)⟩

/-!  ### Format B session identity -/

/-- A Format B file whose `session_meta` carries id "abc" but whose filename
stem is "xyz". -/
def c8Records : List CodexRecord :=
  [ { type := some "session_meta".toList, timestamp := some 1,
      payload := { id := some "abc".toList } },
    { type := some "response_item".toList, timestamp := some 2,
      payload := { ptype := some "function_call".toList } } ]

def c8File : CodexFile :=
  { stem := "xyz".toList, path := "/s/xyz.jsonl".toList,
    content := some c8Records }

/-- C8 counterexample: the parser reports the `session_meta` id "abc", but
the Session row the coordinator commits has id "xyz" — the filename stem —
because `_index_codex_sessions` overrides the parsed id (indexer.py line
236). -/
theorem claim_C8_counterexample :
    (parse_codex_session "xyz".toList "/s/xyz.jsonl".toList 0 c8Records).map
      (fun p => p.session.id) = some "abc".toList ∧
    (codexRun 0 false {} [c8File]).1.sessions.map (fun r => r.id) =
      ["xyz".toList] ∧
    "xyz".toList ≠ "abc".toList := by
  refine ⟨?_, ?_, ?_⟩ <;> decide

lemma codexProcessRecord_id_of_not_meta (stem : Str) (now : Nat)
    (st : CodexState) (e : CodexRecord)
    (he : ¬ e.type = some "session_meta".toList) :
    (codexProcessRecord stem now st e).id = st.id := by
  unfold codexProcessRecord
  rw [if_neg he]
  rcases e.timestamp with _ | t <;> rfl

lemma codex_fold_id_none (stem : Str) (now : Nat)
    (records : List CodexRecord)
    (h : ∀ e ∈ records, ¬ e.type = some "session_meta".toList) :
    ∀ st : CodexState,
      (records.foldl (codexProcessRecord stem now) st).id = st.id := by
  induction records with
  | nil => intro st; rfl
  | cons e rest ih =>
    intro st
    rw [List.foldl_cons, ih (fun e he => h e (by simp [he])),
      codexProcessRecord_id_of_not_meta stem now st e (h e (by simp))]

/-- C8 (amended): the Session row committed for a Format B file always has
the filename stem as its id, whatever id the `session_meta` record carried —
the parsed id only reaches the parser's metadata; and the parser itself
falls back to the stem when no `session_meta` record is present. -/
theorem claim_C8 :
    (∀ (now : Nat) (f : CodexFile) (pc : PreparedCommit),
      codexPrepare now f = .parsed pc → pc.row.id = f.stem) ∧
    (∀ (stem path : Str) (now : Nat) (records : List CodexRecord)
        (p : ParsedSession),
      parse_codex_session stem path now records = some p →
      (∀ e ∈ records, ¬ e.type = some "session_meta".toList) →
      p.session.id = stem) := by
  constructor
  · intro now f pc h
    unfold codexPrepare at h
    split at h
    · cases h
    · split at h
      · cases h
      · injection h with h2
        rw [← h2]
  · intro stem path now records p h hmeta
    have hid : (records.foldl (codexProcessRecord stem now)
        ({} : CodexState)).id = none :=
      codex_fold_id_none stem now records hmeta {}
    simp only [parse_codex_session] at h
    injection h with h2
    rw [← h2]
    simp only [hid]
    rfl

def c8pcDefault : PreparedCommit :=
  { row := { id := [], source := [], created_at := 0, updated_at := 0,
             message_count := 0, subagent_count := 0, file_path := [] } }

def c8pc : PreparedCommit :=
  match codexPrepare 0 c8File with
  | .parsed pc => pc
  | _ => c8pcDefault

def c8NoMetaRecords : List CodexRecord :=
  [{ type := some "response_item".toList,
     payload := { ptype := some "function_call".toList } }]

def c8NoMetaParsed : ParsedSession :=
  (parse_codex_session "q".toList "/q".toList 0 c8NoMetaRecords).getD
    { session := { id := [], source := [], file_path := [], display := [],
                   message_count := 0 }, messages := [] }

/-- Witness for C8 (amended). -/
theorem claim_C8_witness :
    codexPrepare 0 c8File = .parsed c8pc ∧ c8pc.row.id = c8File.stem ∧
    parse_codex_session "q".toList "/q".toList 0 c8NoMetaRecords =
      some c8NoMetaParsed ∧
    (∀ e ∈ c8NoMetaRecords, ¬ e.type = some "session_meta".toList) ∧
    c8NoMetaParsed.session.id = "q".toList :=
  ⟨by decide, claim_C8.1 0 c8File c8pc (by decide), by decide, by decide,
   claim_C8.2 "q".toList "/q".toList 0 c8NoMetaRecords c8NoMetaParsed
     (by decide) (by decide)⟩

/-!  ### `routers/subagents.py` — the subagent lazy loader -/

/-- `pathlib.Path(p).name` for a POSIX path. -/
def pyBasename (p : Str) : Str := (p.splitOn '/').getLastD []

/-- `pathlib.Path(p).stem`: the basename with its last extension removed. -/
def pyStem (p : Str) : Str :=
  let b := pyBasename p
  let parts := b.splitOn '.'
  if parts.length ≤ 1 then b else List.intercalate ['.'] parts.dropLast

/-- Insertion step of the `ORDER BY sequence` model. -/
def insertBySeq (m : MessageRow) : List MessageRow → List MessageRow
  | [] => [m]
  | x :: xs =>
      if m.sequence ≤ x.sequence then m :: x :: xs else x :: insertBySeq m xs

/-- The `ORDER BY sequence` of the message query, modelled as insertion
sort. -/
def sortBySeq : List MessageRow → List MessageRow
  | [] => []
  | x :: xs => insertBySeq x (sortBySeq xs)

/-- The cached-message query of `get_subagent_messages` (lines 65–70):
messages of this session tagged with this agent id, ordered by sequence. -/
def subMsgQuery (session_id agent_id : Str) (s : Store) : List MessageRow :=
  sortBySeq (s.messages.filter
    (fun m => m.session_id = session_id ∧ m.agent_id = some agent_id))

/-- Python slicing `v[:200]` on a JSON value: defined for strings and lists,
raising (`none`) on anything else. -/
def pySlice200 : ContentVal → Option ContentVal
  | .str s => some (.str (s.take 200))
  | .list items => some (.list (items.take 200))
  | .other => none

/-- Binding a sliced value to the `Text` column `first_message`
(`models.py` line 95): only a string binds; a list (or any other value)
reaches `db.commit()` and raises there, so the endpoint fails. -/
def bindText : ContentVal → Option Str
  | .str s => some s
  | _ => none

/-- The `first_message` update of lines 103–108: `json.loads` the first
cached message's content (the structured payload in this model), and when it
has a `content` key, slice its value to 200 and bind it to the `Text`
column.  The outer `none` means the request fails — either the slice raised
(non-sliceable value) or the commit raised binding a non-string (a sliced
content-block list); `some none` means no `content` key, so no update. -/
def firstMessageSlice : RawContent → Option (Option Str)
  | .claude m =>
      match m.content with
      | none => some none
      | some v =>
          match pySlice200 v with
          | none => none
          | some v' =>
              match bindText v' with
              | none => none
              | some s => some (some s)
  | .codex p =>
      match bindText (.list (p.content.take 200)) with
      | none => none
      | some s => some (some s)

/-- Replace the first element satisfying `p` (the single ORM object the
`scalar_one_or_none` query returned and the handler mutates). -/
def replaceFirst {α : Type} (p : α → Bool) (upd : α → α) : List α → List α
  | [] => []
  | x :: xs => if p x then upd x :: xs else x :: replaceFirst p upd xs

/-- The `first_message` assignment: the sliced value when the first message
had a `content` key, otherwise the row's previous value. -/
def applyFm (fm old : Option Str) : Option Str :=
  match fm with
  | some v => some v
  | none => old

/-- The endpoint's result: a message list, a 404, or a 500. -/
inductive SubOutcome where
  | ok (msgs : List MessageRow)
  | notFound
  | failure
deriving DecidableEq, Repr

/-- The messages cached for a subagent: the parsed messages tagged with the
session and agent ids (lines 85–99). -/
def tagMsgs (session_id agent_id : Str) (msgs : List ParsedMessage) :
    List MessageRow :=
  msgs.map (fun m => {
    session_id := session_id,
    agent_id := some agent_id,
    type := m.type,
    content := m.content,
    content_preview := m.content_preview,
    timestamp := m.timestamp,
    sequence := m.sequence,
    parent_uuid := m.parent_uuid,
    model := m.model,
    usage_input_tokens := m.usage_input_tokens,
    usage_output_tokens := m.usage_output_tokens })

/-- `get_subagent_messages` (`routers/subagents.py` lines 43–121): look up
the Subagent row (404 when absent); return the cached messages when any
exist; otherwise, when a file path is recorded, read and parse it (`fs`
models the filesystem; `none` = the read raises, surfaced as a 500), cache
the parsed messages tagged with the agent id, update the Subagent's message
count and first-message preview, commit, re-run the message query and
return its result.  A `None` parse or a missing file path returns an empty
list with no store change. -/
def get_subagent_messages (session_id agent_id : Str)
    (fs : Str → Option (List ClaudeRecord)) (now : Nat) (s : Store) :
    SubOutcome × Store :=
  match s.subagents.find?
      (fun r => r.session_id = session_id ∧ r.agent_id = agent_id) with
  | none => (.notFound, s)
  | some sub =>
    let cached := subMsgQuery session_id agent_id s
    if cached ≠ [] then (.ok cached, s)
    else
      match sub.file_path with
      | none => (.ok [], s)
      | some p =>
        match fs p with
        | none => (.failure, s)
        | some records =>
          match parse_claude_session (pyStem p) p now records with
          | none => (.ok [], s)
          | some parsed =>
            match (match parsed.messages.head? with
                   | none => some none
                   | some m0 => firstMessageSlice m0.content) with
            | none => (.failure, s)
            | some fmUpd =>
              let sub' := { sub with
                message_count := parsed.messages.length,
                first_message := applyFm fmUpd sub.first_message }
              let s' := { s with
                messages := s.messages ++
                  tagMsgs session_id agent_id parsed.messages,
                subagents := replaceFirst
                  (fun r => r.session_id = session_id ∧ r.agent_id = agent_id)
                  (fun _ => sub') s.subagents }
              (.ok (subMsgQuery session_id agent_id s'), s')

lemma parse_claude_some_nonempty {stem path : Str} {now : Nat}
    {records : List ClaudeRecord} {p : ParsedSession}
    (h : parse_claude_session stem path now records = some p) :
    p.messages ≠ [] := by
  have hc := (parse_claude_by_core stem path now records).1
  rw [h] at hc
  split at hc
  · cases hc
  · next hlen =>
    have hm := Option.some.inj hc
    intro hnil
    apply hlen
    rw [← hm, hnil]
    rfl

lemma parse_claude_messages_range {stem path : Str} {now : Nat}
    {records : List ClaudeRecord} {p : ParsedSession}
    (h : parse_claude_session stem path now records = some p) :
    p.messages.map (·.sequence) = List.range p.messages.length := by
  have hc := (parse_claude_by_core stem path now records).1
  rw [h] at hc
  have hinv := claude_fold_inv (claudeDispatch now)
    (claudeDispatch_shape now) records {} rfl rfl
  split at hc
  · cases hc
  · have hm := Option.some.inj hc
    rw [hm, ← hinv.1]
    exact hinv.2

lemma insertBySeq_le (m : MessageRow) (l : List MessageRow)
    (h : ∀ x ∈ l, m.sequence ≤ x.sequence) : insertBySeq m l = m :: l := by
  cases l with
  | nil => rfl
  | cons x xs =>
    unfold insertBySeq
    rw [if_pos (h x (by simp))]

lemma sortBySeq_sorted (l : List MessageRow)
    (h : l.Pairwise (fun a b => a.sequence ≤ b.sequence)) :
    sortBySeq l = l := by
  induction l with
  | nil => rfl
  | cons x xs ih =>
    obtain ⟨hx, hxs⟩ := List.pairwise_cons.mp h
    rw [show sortBySeq (x :: xs) = insertBySeq x (sortBySeq xs) from rfl,
      ih hxs, insertBySeq_le x xs hx]

lemma insertBySeq_ne_nil (m : MessageRow) (l : List MessageRow) :
    insertBySeq m l ≠ [] := by
  cases l with
  | nil => simp [insertBySeq]
  | cons x xs =>
    unfold insertBySeq
    split <;> simp

lemma sortBySeq_eq_nil {l : List MessageRow} (h : sortBySeq l = []) :
    l = [] := by
  cases l with
  | nil => rfl
  | cons x xs =>
    exact absurd h (insertBySeq_ne_nil x (sortBySeq xs))

lemma tagMsgs_pairwise (sid aid : Str) (msgs : List ParsedMessage)
    (h : msgs.map (·.sequence) = List.range msgs.length) :
    (tagMsgs sid aid msgs).Pairwise (fun a b => a.sequence ≤ b.sequence) := by
  have hmap : (tagMsgs sid aid msgs).map (·.sequence) =
      msgs.map (·.sequence) := by
    unfold tagMsgs
    rw [List.map_map]
    rfl
  have hp : ((tagMsgs sid aid msgs).map (·.sequence)).Pairwise (· ≤ ·) := by
    rw [hmap, h]
    exact List.Pairwise.imp le_of_lt (List.pairwise_lt_range _)
  exact List.pairwise_map.mp hp

lemma subMsgQuery_append (sid aid : Str) (s s' : Store)
    (msgs : List ParsedMessage)
    (hmsgs : s'.messages = s.messages ++ tagMsgs sid aid msgs)
    (hempty : subMsgQuery sid aid s = [])
    (hrange : msgs.map (·.sequence) = List.range msgs.length) :
    subMsgQuery sid aid s' = tagMsgs sid aid msgs := by
  unfold subMsgQuery at hempty ⊢
  have hfil : s.messages.filter
      (fun m => m.session_id = sid ∧ m.agent_id = some aid) = [] :=
    sortBySeq_eq_nil hempty
  rw [hmsgs, List.filter_append, hfil, List.nil_append]
  rw [List.filter_eq_self.mpr ?_]
  · exact sortBySeq_sorted _ (tagMsgs_pairwise sid aid msgs hrange)
  · intro m hm
    obtain ⟨pm, _, he⟩ := List.mem_map.mp hm
    rw [← he]
    exact decide_eq_true ⟨rfl, rfl⟩

lemma find?_replaceFirst {α : Type} (p : α → Bool) (upd : α → α)
    (l : List α) (hupd : ∀ x, p x = true → p (upd x) = true) :
    ∀ x, l.find? p = some x →
      ∃ y, (replaceFirst p upd l).find? p = some y := by
  induction l with
  | nil => intro x hx; cases hx
  | cons a as ih =>
    intro x hx
    by_cases hpa : p a = true
    · refine ⟨upd a, ?_⟩
      unfold replaceFirst
      rw [if_pos hpa]
      rw [List.find?_cons_of_pos _ (hupd a hpa)]
    · rw [List.find?_cons_of_neg _ (by simp [hpa])] at hx
      obtain ⟨y, hy⟩ := ih x hx
      refine ⟨y, ?_⟩
      unfold replaceFirst
      rw [if_neg (by simp [hpa])]
      rw [List.find?_cons_of_neg _ (by simp [hpa])]
      exact hy

/-- C9: subagent lazy materialization.  (a) With cached messages present,
any request returns them with no store change, independently of the
filesystem and clock — no re-parse.  (b) A first request (no cached
messages, recorded file path, readable file, non-empty parse, first-message
update reaching the commit: a string `content` slices and binds to the
`Text` column, no `content` key skips the update) returns the parsed
messages tagged with the agent id, persists them, records the new message
count on the Subagent row, and every subsequent request returns the same
messages from the cache with no further store change.  (c) Without a
recorded file path the result is empty, not an error.  (d) An empty parse
likewise yields an empty result.  (e) A failed read is surfaced as a
failure with no store change.  (f) A failed first-message update — the
slice raising on a dict, or the commit raising while binding a sliced
content-block list to the `Text` column — is surfaced as a failure and
persists nothing. -/
theorem claim_C9 :
    (∀ (sid aid : Str) (fs fs' : Str → Option (List ClaudeRecord))
        (now now' : Nat) (s : Store) (sub : SubagentRow),
      s.subagents.find?
        (fun r => r.session_id = sid ∧ r.agent_id = aid) = some sub →
      subMsgQuery sid aid s ≠ [] →
      get_subagent_messages sid aid fs now s =
        (.ok (subMsgQuery sid aid s), s) ∧
      get_subagent_messages sid aid fs now s =
        get_subagent_messages sid aid fs' now' s) ∧
    (∀ (sid aid : Str) (fs fs' : Str → Option (List ClaudeRecord))
        (now now' : Nat) (s : Store) (sub : SubagentRow) (p : Str)
        (records : List ClaudeRecord) (parsed : ParsedSession)
        (fm : Option Str),
      s.subagents.find?
        (fun r => r.session_id = sid ∧ r.agent_id = aid) = some sub →
      subMsgQuery sid aid s = [] →
      sub.file_path = some p →
      fs p = some records →
      parse_claude_session (pyStem p) p now records = some parsed →
      (match parsed.messages.head? with
       | none => some none
       | some m0 => firstMessageSlice m0.content) = some fm →
      (get_subagent_messages sid aid fs now s).1 =
        .ok (tagMsgs sid aid parsed.messages) ∧
      subMsgQuery sid aid (get_subagent_messages sid aid fs now s).2 =
        tagMsgs sid aid parsed.messages ∧
      (get_subagent_messages sid aid fs now s).2.messages =
        s.messages ++ tagMsgs sid aid parsed.messages ∧
      (get_subagent_messages sid aid fs now s).2.subagents =
        replaceFirst (fun r => r.session_id = sid ∧ r.agent_id = aid)
          (fun _ => { sub with
            message_count := parsed.messages.length,
            first_message := applyFm fm sub.first_message }) s.subagents ∧
      get_subagent_messages sid aid fs' now'
          (get_subagent_messages sid aid fs now s).2 =
        (.ok (tagMsgs sid aid parsed.messages),
          (get_subagent_messages sid aid fs now s).2)) ∧
    (∀ (sid aid : Str) (fs : Str → Option (List ClaudeRecord)) (now : Nat)
        (s : Store) (sub : SubagentRow),
      s.subagents.find?
        (fun r => r.session_id = sid ∧ r.agent_id = aid) = some sub →
      subMsgQuery sid aid s = [] →
      sub.file_path = none →
      get_subagent_messages sid aid fs now s = (.ok [], s)) ∧
    (∀ (sid aid : Str) (fs : Str → Option (List ClaudeRecord)) (now : Nat)
        (s : Store) (sub : SubagentRow) (p : Str)
        (records : List ClaudeRecord),
      s.subagents.find?
        (fun r => r.session_id = sid ∧ r.agent_id = aid) = some sub →
      subMsgQuery sid aid s = [] →
      sub.file_path = some p →
      fs p = some records →
      parse_claude_session (pyStem p) p now records = none →
      get_subagent_messages sid aid fs now s = (.ok [], s)) ∧
    (∀ (sid aid : Str) (fs : Str → Option (List ClaudeRecord)) (now : Nat)
        (s : Store) (sub : SubagentRow) (p : Str),
      s.subagents.find?
        (fun r => r.session_id = sid ∧ r.agent_id = aid) = some sub →
      subMsgQuery sid aid s = [] →
      sub.file_path = some p →
      fs p = none →
      get_subagent_messages sid aid fs now s = (.failure, s)) ∧
    (∀ (sid aid : Str) (fs : Str → Option (List ClaudeRecord)) (now : Nat)
        (s : Store) (sub : SubagentRow) (p : Str)
        (records : List ClaudeRecord) (parsed : ParsedSession),
      s.subagents.find?
        (fun r => r.session_id = sid ∧ r.agent_id = aid) = some sub →
      subMsgQuery sid aid s = [] →
      sub.file_path = some p →
      fs p = some records →
      parse_claude_session (pyStem p) p now records = some parsed →
      (match parsed.messages.head? with
       | none => some none
       | some m0 => firstMessageSlice m0.content) = (none : Option (Option Str)) →
      get_subagent_messages sid aid fs now s = (.failure, s)) := by
  have hhit : ∀ (sid aid : Str) (fs : Str → Option (List ClaudeRecord))
      (now : Nat) (s : Store) (sub : SubagentRow),
      s.subagents.find?
        (fun r => r.session_id = sid ∧ r.agent_id = aid) = some sub →
      subMsgQuery sid aid s ≠ [] →
      get_subagent_messages sid aid fs now s =
        (.ok (subMsgQuery sid aid s), s) := by
    intro sid aid fs now s sub h1 h2
    simp only [get_subagent_messages, h1, if_pos h2]
  refine ⟨?_, ?_, ?_, ?_, ?_, ?_⟩
  · intro sid aid fs fs' now now' s sub h1 h2
    exact ⟨hhit sid aid fs now s sub h1 h2,
      (hhit sid aid fs now s sub h1 h2).trans
        (hhit sid aid fs' now' s sub h1 h2).symm⟩
  · intro sid aid fs fs' now now' s sub p records parsed fm h1 h2 h3 h4 h5 h6
    have hr : get_subagent_messages sid aid fs now s =
        (.ok (subMsgQuery sid aid
          { s with
            messages := s.messages ++ tagMsgs sid aid parsed.messages,
            subagents := replaceFirst
              (fun r => r.session_id = sid ∧ r.agent_id = aid)
              (fun _ => { sub with
                message_count := parsed.messages.length,
                first_message := applyFm fm sub.first_message }) s.subagents }),
         { s with
           messages := s.messages ++ tagMsgs sid aid parsed.messages,
           subagents := replaceFirst
             (fun r => r.session_id = sid ∧ r.agent_id = aid)
             (fun _ => { sub with
               message_count := parsed.messages.length,
               first_message := applyFm fm sub.first_message }) s.subagents }) := by
      simp only [get_subagent_messages, h1, h2, h3, h4, h5, ne_eq,
        not_true_eq_false, if_false]
      split
      · next heq => rw [heq] at h6; cases h6
      · next fmUpd heq =>
        rw [heq] at h6
        injection h6 with hfm
        subst hfm
        rfl
    have hq : subMsgQuery sid aid
        (get_subagent_messages sid aid fs now s).2 =
        tagMsgs sid aid parsed.messages := by
      rw [hr]
      exact subMsgQuery_append sid aid s _ parsed.messages rfl h2
        (parse_claude_messages_range h5)
    refine ⟨?_, hq, ?_, ?_, ?_⟩
    · have h1st : (get_subagent_messages sid aid fs now s).1 =
          SubOutcome.ok (subMsgQuery sid aid
            (get_subagent_messages sid aid fs now s).2) := by
        rw [hr]
      rw [h1st, hq]
    · rw [hr]
    · rw [hr]
    · -- subsequent request hits the cache
      have hfind2 : ∃ y, ((get_subagent_messages sid aid fs now s).2).subagents.find?
          (fun r => r.session_id = sid ∧ r.agent_id = aid) = some y := by
        rw [hr]
        refine find?_replaceFirst _ _ s.subagents ?_ sub h1
        intro x hx
        have hps := List.find?_some h1
        simp only [decide_eq_true_eq] at hps
        exact decide_eq_true ⟨hps.1, hps.2⟩
      obtain ⟨y, hy⟩ := hfind2
      have hne : subMsgQuery sid aid
          (get_subagent_messages sid aid fs now s).2 ≠ [] := by
        rw [hq]
        intro hnil
        exact parse_claude_some_nonempty h5 (List.map_eq_nil.mp hnil)
      have := hhit sid aid fs' now'
        (get_subagent_messages sid aid fs now s).2 y hy hne
      rw [this, hq]
  · intro sid aid fs now s sub h1 h2 h3
    simp only [get_subagent_messages, h1, h2, h3, ne_eq,
      not_true_eq_false, if_false]
  · intro sid aid fs now s sub p records h1 h2 h3 h4 h5
    simp only [get_subagent_messages, h1, h2, h3, h4, h5, ne_eq,
      not_true_eq_false, if_false]
  · intro sid aid fs now s sub p h1 h2 h3 h4
    simp only [get_subagent_messages, h1, h2, h3, h4, ne_eq,
      not_true_eq_false, if_false]
  · intro sid aid fs now s sub p records parsed h1 h2 h3 h4 h5 h6
    simp only [get_subagent_messages, h1, h2, h3, h4, h5, ne_eq,
      not_true_eq_false, if_false]
    split
    · rfl
    · next fmUpd heq => rw [heq] at h6; cases h6

/-- Concrete subagent file path for the C9 witness. -/
def c9Path : Str := "/sub/a1.jsonl".toList

/-- Concrete file content for the C9 witness: one user record. -/
def c9Records : List ClaudeRecord :=
  [{ type := some "user".toList, timestamp := some 5,
     message := { content := some (.str "hi".toList) } }]

/-- Concrete Subagent row for the C9 witness. -/
def c9Sub : SubagentRow :=
  { session_id := "s1".toList, agent_id := "a1".toList,
    file_path := some c9Path }

/-- Concrete starting store for the C9 witness: the Subagent row, no cached
messages. -/
def c9Store : Store := { subagents := [c9Sub] }

/-- Concrete filesystem for the C9 witness. -/
def c9Fs : Str → Option (List ClaudeRecord) :=
  fun q => if q = c9Path then some c9Records else none

/-- The parse of the C9 witness file. -/
def c9Parsed : ParsedSession :=
  (parse_claude_session (pyStem c9Path) c9Path 0 c9Records).getD
    { session := { id := [], source := [], file_path := [], display := [],
                   message_count := 0 }, messages := [] }

/-- The first-message slice of the C9 witness parse. -/
def c9Fm : Option Str := some "hi".toList

/-- A file whose first message carries list-valued (content-block) content:
the slice succeeds but binding the list to the `Text` column raises at
commit. -/
def c9ListRecords : List ClaudeRecord :=
  [{ type := some "user".toList, timestamp := some 5,
     message := { content := some (.list [.item (some "text".toList)
                                               (some "hi".toList)]) } }]

/-- Subagent row pointing at the list-content file. -/
def c9ListSub : SubagentRow :=
  { session_id := "s2".toList, agent_id := "a2".toList,
    file_path := some "/sub/a2.jsonl".toList }

/-- Store for the list-content case. -/
def c9ListStore : Store := { subagents := [c9ListSub] }

/-- Filesystem for the list-content case. -/
def c9ListFs : Str → Option (List ClaudeRecord) :=
  fun q => if q = "/sub/a2.jsonl".toList then some c9ListRecords else none

/-- The parse of the list-content file. -/
def c9ListParsed : ParsedSession :=
  (parse_claude_session (pyStem "/sub/a2.jsonl".toList)
      "/sub/a2.jsonl".toList 0 c9ListRecords).getD
    { session := { id := [], source := [], file_path := [], display := [],
                   message_count := 0 }, messages := [] }

/-- Witness for C9 at a concrete store, file and clock: all hypotheses of
the first-materialization case hold (string first-message content) and its
conclusions follow; and on a file whose first message carries content-block
list content, the first-message update fails and the request is a failure
with nothing persisted. -/
theorem claim_C9_witness :
    c9Store.subagents.find?
      (fun r => r.session_id = "s1".toList ∧ r.agent_id = "a1".toList) =
        some c9Sub ∧
    subMsgQuery "s1".toList "a1".toList c9Store = [] ∧
    c9Sub.file_path = some c9Path ∧
    c9Fs c9Path = some c9Records ∧
    parse_claude_session (pyStem c9Path) c9Path 0 c9Records =
      some c9Parsed ∧
    ((get_subagent_messages "s1".toList "a1".toList c9Fs 0 c9Store).1 =
        .ok (tagMsgs "s1".toList "a1".toList c9Parsed.messages) ∧
      subMsgQuery "s1".toList "a1".toList
          (get_subagent_messages "s1".toList "a1".toList c9Fs 0 c9Store).2 =
        tagMsgs "s1".toList "a1".toList c9Parsed.messages ∧
      (get_subagent_messages "s1".toList "a1".toList c9Fs 0 c9Store).2.messages =
        c9Store.messages ++ tagMsgs "s1".toList "a1".toList c9Parsed.messages ∧
      (get_subagent_messages "s1".toList "a1".toList c9Fs 0 c9Store).2.subagents =
        replaceFirst
          (fun r => r.session_id = "s1".toList ∧ r.agent_id = "a1".toList)
          (fun _ => { c9Sub with
            message_count := c9Parsed.messages.length,
            first_message := applyFm c9Fm c9Sub.first_message })
          c9Store.subagents ∧
      get_subagent_messages "s1".toList "a1".toList c9Fs 7
          (get_subagent_messages "s1".toList "a1".toList c9Fs 0 c9Store).2 =
        (.ok (tagMsgs "s1".toList "a1".toList c9Parsed.messages),
          (get_subagent_messages "s1".toList "a1".toList c9Fs 0 c9Store).2)) ∧
    parse_claude_session (pyStem "/sub/a2.jsonl".toList)
      "/sub/a2.jsonl".toList 0 c9ListRecords = some c9ListParsed ∧
    (match c9ListParsed.messages.head? with
     | none => some none
     | some m0 => firstMessageSlice m0.content) = (none : Option (Option Str)) ∧
    get_subagent_messages "s2".toList "a2".toList c9ListFs 0 c9ListStore =
      (.failure, c9ListStore) :=
  ⟨by decide, by decide, by decide, by decide, by decide,
   claim_C9.2.1 "s1".toList "a1".toList c9Fs c9Fs 0 7 c9Store c9Sub
     c9Path c9Records c9Parsed c9Fm (by decide) (by decide) (by decide)
     (by decide) (by decide) (by decide),
   by decide, by decide,
   claim_C9.2.2.2.2.2 "s2".toList "a2".toList c9ListFs 0 c9ListStore
     c9ListSub "/sub/a2.jsonl".toList c9ListRecords c9ListParsed
     (by decide) (by decide) (by decide) (by decide) (by decide) (by decide)⟩
